import Mathlib

/-!
Shallow embedding of the FeederUtils repository (atanisoft/FeederUtils) for
checking its natural-language specification.

Embedded sources:
* `src/kicad-to-openpnp-standalone.py` — KiCad footprint/pad to OpenPnP
  package/part/board converter (lookup tables, `identity_used_packages_and_parts`,
  `create_board_xml`, `update_parts_xml`, `update_packages_xml`).
* `src/label_maker/generate_labels.py` and the legacy `src/generate_labels.py`
  — the label-sheet paginator (`create_page`, `generate`, `parse_board_xml`).
* `src/openpnp/create-feeders.py` — feeder creation
  (`create_auto_feeders`, `create_slotted_feeders`).

Modelling conventions:
* KiCad internal units are integers (nanometres); `pcbnew.Iu2Millimeter`
  becomes an exact division by 10^6 in `ℚ`.  All millimetre quantities are `ℚ`.
* Python `round(x, 10)` is modelled as rounding `x * 10^10` to the nearest
  integer (Mathlib `round`; the half-even tie rule of Python floats differs
  only on exact ties in the 10th decimal, which no claim touches).
* Python dicts become insertion-ordered association lists; assignment to an
  existing key replaces the value in place, a new key is appended
  (`dictSet`), matching CPython's ordered-dict semantics.
* File writes become returned values; XML trees become the `XmlElem`
  inductive; `str(...)` rendering of numeric attribute values keeps the
  numeric payload (`ℚ`) where a claim is about the number, and uses
  `toString` where the value is only carried along.
* A Python function that can raise (ZeroDivisionError) returns `Option`.
-/

namespace FeederUtils

/-! ### Small string/dict helpers shared by the scripts -/

/-- Python `pat in s` substring test on char lists. -/
def hasSubstr (pat : List Char) : List Char → Bool
  | [] => pat.isEmpty
  | c :: rest => pat.isPrefixOf (c :: rest) || hasSubstr pat rest

/-- Python `pat in s` for strings. -/
def strContains (s pat : String) : Bool := hasSubstr pat.data s.data

/-- Python `s.upper()` (ASCII; all names in the tables are ASCII). -/
def pyUpper (s : String) : String := String.mk (s.data.map Char.toUpper)

/-- First-match association-list lookup (Python `d[k]` / `k in d`). -/
def alookup {α : Type} (k : String) : List (String × α) → Option α
  | [] => none
  | (k', v) :: rest => if k' = k then some v else alookup k rest

/-- Python ordered-dict assignment `d[k] = v`: replace in place if the key
exists, else append. -/
def dictSet {α : Type} (m : List (String × α)) (k : String) (v : α) :
    List (String × α) :=
  if (alookup k m).isSome then
    m.map (fun p => if p.1 = k then (k, v) else p)
  else
    m ++ [(k, v)]

/-! ### KiCad-side data model (inputs of `kicad-to-openpnp-standalone.py`)

The `pcbnew` objects the script reads are modelled by their observed fields:
positions and sizes in KiCad internal units (`Int`), the shape name already
in the form produced by `PAD_SHAPE_T_asString(...).split('::')[1]`. -/

/-- `pcbnew.Iu2Millimeter`: internal units (nm) to millimetres. -/
def iu2mm (iu : Int) : ℚ := (iu : ℚ) / 1000000

/-- Python `round(x, 10)` used on millimetre values. -/
def round10 (q : ℚ) : ℚ := (round (q * 10000000000) : ℚ) / 10000000000

/-- A KiCad pad as observed through the `pcbnew` API. -/
structure Pad where
  name : String
  posX : Int
  posY : Int
  sizeX : Int
  sizeY : Int
  /-- value of `PAD_SHAPE_T_asString(pad.GetShape()).split('::')[1]`. -/
  shape : String
  onCopper : Bool
  roundRectCornerRadius : Int := 0
  boundingRadius : Int := 0
  deriving Repr, DecidableEq

/-- The copper layer a footprint sits on (`pcbnew.F_Cu` / `pcbnew.B_Cu`). -/
inductive Layer | FCu | BCu
  deriving Repr, DecidableEq

/-- A KiCad footprint as observed through the `pcbnew` API. -/
structure Footprint where
  reference : String
  value : String
  libItemName : String
  typeName : String
  layer : Layer
  posX : Int
  posY : Int
  orientationDegrees : ℚ
  pads : List Pad
  deriving Repr, DecidableEq

/-- A KiCad board: the list returned by `board.GetFootprints()`. -/
structure Board where
  footprints : List Footprint
  deriving Repr

/-! ### The static lookup tables of `kicad-to-openpnp-standalone.py` -/

/-- Mapping of KiCad footprint names to OpenPnP Package names
(`footprint_to_package_mapping`, lines 42-102). -/
def footprint_to_package_mapping : List (String × String) := [
  ("Fiducial_0.5mm_Mask1mm", "FIDUCIAL_0.5X1"),
  ("Fiducial_0.5mm_Mask1.5mm", "FIDUCIAL_0.5X1.5"),
  ("Fiducial_0.75mm_Mask1.5mm", "FIDUCIAL_0.75X1.5"),
  ("Fiducial_0.75mm_Mask2.25mm", "FIDUCIAL_0.75X2.25"),
  ("Fiducial_1mm_Mask2mm", "FIDUCIAL_1X2"),
  ("Fiducial_1mm_Mask3mm", "FIDUCIAL_1X3"),
  ("Fiducial_1mm_Mask4.5mm", "FIDUCIAL_1X4.5"),
  ("Fiducial_1.5mm_Mask2mm", "FIDUCIAL_1.5X2"),
  ("C_0402_1005Metric_Pad0.74x0.62mm_HandSolder", "C_0402"),
  ("C_0603_1608Metric_Pad1.08x0.95mm_HandSolder", "C_0603"),
  ("C_0805_2012Metric_Pad1.15x1.40mm_HandSolder", "C_0805"),
  ("C_0805_2012Metric_Pad1.18x1.45mm_HandSolder", "C_0805"),
  ("C_1206_3216Metric_Pad1.33x1.80mm_HandSolder", "C_1206"),
  ("C_1210_3225Metric_Pad1.33x2.70mm_HandSolder", "C_1210"),
  ("C_0402_1005Metric", "C_0402"),
  ("C_0603_1608Metric", "C_0603"),
  ("C_0805_2012Metric", "C_0805"),
  ("C_1206_3216Metric", "C_1206"),
  ("C_1210_3225Metric", "C_1210"),
  ("CP_Elec_5x5.3", "C_5X5.3MM"),
  ("CP_ELEC_6.3X7.7", "C_6.3X7.7"),
  ("R_0402_1005Metric_Pad0.72x0.64mm_HandSolder", "R_0402"),
  ("R_0603_1608Metric_Pad0.98x0.95mm_HandSolder", "R_0603"),
  ("R_0805_2012Metric_Pad1.20x1.40mm_HandSolder", "R_0805"),
  ("R_1206_3216Metric_Pad1.30x1.75mm_HandSolder", "R_1206"),
  ("R_1210_3225Metric_Pad1.30x2.65mm_HandSolder", "R_1210"),
  ("R_0402_1005Metric", "R_0402"),
  ("R_0603_1608Metric", "R_0603"),
  ("R_0805_2012Metric", "R_0805"),
  ("R_1206_3216Metric", "R_1206"),
  ("R_1210_3225Metric", "R_1210"),
  ("R_Array_Concave_4x0402", "R_4X0402"),
  ("QFN-28-1EP_6x6mm_P0.65mm_EP4.25x4.25mm", "QFN28_6x6MM"),
  ("SOT-223-3_TabPin2", "SOT223"),
  ("SOT-353_SC-70-5", "SOT353"),
  ("L_Taiyo-Yuden_NR-40xx_HandSoldering", "L_TAIYO_40XX"),
  ("L_0603_1608Metric_Pad1.05x0.95mm_HandSolder", "L_0603"),
  ("L_0603_1608Metric", "L_0603"),
  ("TSSOP-28_4.4x9.7mm_P0.65mm", "TSSOP28_4.4X9.7MM"),
  ("TO-252-2", "TO252_2"),
  ("TSOT-23-6", "TSOT23_6"),
  ("D_SMA_Handsoldering", "D_SMA"),
  ("HTSSOP-16-1EP_4.4X5MM_P0.65MM_EP3.4X5MM_MASK3X3MM_THERMALVIAS", "HTSSOP16_4.4X5MM"),
  ("SOIC-8_3.9x4.9mm_P1.27mm", "SOIC8_3.9X4.9MM"),
  ("LED_0603_1608Metric_Pad1.05x0.95mm_HandSolder", "LED_0603"),
  ("LED_0603_1608Metric", "LED_0603"),
  ("LED_0805_2012Metric_Pad1.15x1.40mm_HandSolder", "LED_0805"),
  ("LED_0805_2012Metric", "LED_0805"),
  ("LED_SK6805_PLCC4_2.4X2.7MM_P1.3MM_RGB", "LED_2.4X2.7MM")]

/-- Default part heights by package (`part_height_mapping`, lines 107-119). -/
def part_height_mapping : List (String × String) := [
  ("C_0402", "0.35"), ("C_0603", "0.45"), ("C_0805", "0.45"),
  ("C_1206", "0.55"), ("C_1210", "0.55"),
  ("R_0402", "0.35"), ("R_0603", "0.45"), ("R_0805", "0.45"),
  ("R_1206", "0.55"), ("R_1210", "0.55"), ("R_4X0402", "0.35")]

/-- Default package body sizes (`package_size_mapping`, lines 124-201);
each entry is `(id, (h, w))` with the string values of the source. -/
def package_size_mapping : List (String × String × String) := [
  ("C_0402", ("0.5", "1")), ("C_0603", ("0.8", "1.6")),
  ("C_0805", ("1.2", "2.0")), ("C_1206", ("1.6", "3.2")),
  ("C_1210", ("2.5", "3.2")),
  ("R_0402", ("0.5", "1")), ("R_0603", ("0.8", "1.6")),
  ("R_0805", ("1.2", "2.0")), ("R_1206", ("1.6", "3.2")),
  ("R_1210", ("2.5", "3.2")),
  ("SOIC8_3.9X4.9MM", ("4.9", "3.9")),
  ("HTSSOP16_4.4X5MM", ("5.0", "4.4")),
  ("TSSOP28_4.4X9.7MM", ("9.7", "4.4")),
  ("L_0603", ("0.8", "1.6")),
  ("C_5X5.3MM", ("5.3", "5.0")), ("C_6.3X7.7", ("7.7", "6.3")),
  ("LED_0603", ("0.8", "1.6")), ("LED_0805", ("1.2", "2.0")),
  ("LED_2.4X2.7MM", ("2.7", "2.4"))]

/-! ### `identity_used_packages_and_parts` (lines 363-474) -/

/-- One entry of the `packages[fp_name][pad_name]` dict: pad geometry in
millimetres, plus shape and (for ROUNDRECT/CIRCLE) a radius. -/
structure PadRecord where
  w : ℚ
  h : ℚ
  x : ℚ
  y : ℚ
  shape : String
  radius : Option ℚ
  deriving Repr, DecidableEq, Inhabited

/-- One entry of the `placements` list built by
`identity_used_packages_and_parts`. -/
structure Placement where
  id : String
  side : String
  partId : String
  ptype : String
  x : ℚ
  y : ℚ
  rotation : ℚ
  deriving Repr, DecidableEq, Inhabited

/-- The `(packages, parts, placements)` triple the function returns. -/
structure IdentityResult where
  packages : List (String × List (String × PadRecord))
  parts : List (String × String)
  placements : List Placement
  deriving Repr

/-- Pad-name fixup (lines 428-430): an empty pad name on a fiducial package
becomes `"1"`. -/
def effectivePadName (fp_name : String) (pad : Pad) : String :=
  if strContains (pyUpper fp_name) "FIDUCIAL" ∧ pad.name = "" then "1" else pad.name

/-- The body of the pad loop (lines 414-472): compute the offsets/size in
millimetres and store the record under the (possibly fixed-up) pad name,
but only for pads on a copper layer. -/
def processPad (fp : Footprint) (fp_name : String)
    (pads : List (String × PadRecord)) (pad : Pad) : List (String × PadRecord) :=
  let fp_offs_x_mm := iu2mm (pad.posX - fp.posX)
  let fp_offs_y_mm := iu2mm (pad.posY - fp.posY)
  let fp_size_w_mm := iu2mm pad.sizeX
  let fp_size_h_mm := iu2mm pad.sizeY
  let pad_name := effectivePadName fp_name pad
  if pad.onCopper then
    if pad.shape = "ROUNDRECT" then
      dictSet pads pad_name
        ⟨fp_size_w_mm, fp_size_h_mm, fp_offs_x_mm, fp_offs_y_mm, pad.shape,
          some (iu2mm pad.roundRectCornerRadius)⟩
    else if pad.shape = "CIRCLE" then
      dictSet pads pad_name
        ⟨fp_size_w_mm, fp_size_h_mm, fp_offs_x_mm, fp_offs_y_mm, pad.shape,
          some (iu2mm pad.boundingRadius)⟩
    else
      dictSet pads pad_name
        ⟨fp_size_w_mm, fp_size_h_mm, fp_offs_x_mm, fp_offs_y_mm, pad.shape, none⟩
  else pads

/-- The per-footprint body of `identity_used_packages_and_parts`
(lines 370-472).  `packages[fp_name] = {}` followed by the pad loop writing
only the key `fp_name` is expressed as building the pad dict locally and
storing it with one `dictSet`. -/
def processFootprint (ignore_top ignore_bottom use_value_for_part_id use_mixedcase : Bool)
    (acc : IdentityResult) (fp : Footprint) : IdentityResult :=
  if strContains fp.typeName "SMD" then
    if ignore_top ∧ fp.layer = Layer.FCu then acc
    else if ignore_bottom ∧ fp.layer = Layer.BCu then acc
    else
      let fp_name0 := fp.libItemName
      let fp_name1 :=
        match alookup fp_name0 footprint_to_package_mapping with
        | some mapped => mapped
        | none => fp_name0
      let fp_value := fp.value
      let placement_type :=
        if strContains fp_value "Fiducial" then "Fiducial" else "Placement"
      let placement_name0 :=
        if strContains fp_value "Fiducial" then fp_name1
        else fp_name1 ++ "_" ++ fp_value
      let placement_name1 :=
        if use_value_for_part_id then fp_value else placement_name0
      let placement_name :=
        if use_mixedcase then placement_name1 else pyUpper placement_name1
      let fp_name :=
        if use_mixedcase then fp_name1 else pyUpper fp_name1
      let parts' := dictSet acc.parts placement_name fp_name
      let placements' := acc.placements ++
        [{ id := fp.reference,
           side := if fp.layer = Layer.FCu then "Top" else "Bottom",
           partId := placement_name,
           ptype := placement_type,
           x := iu2mm fp.posX,
           y := iu2mm fp.posY,
           rotation := fp.orientationDegrees }]
      let pkgPads := fp.pads.foldl (processPad fp fp_name) []
      let packages' := dictSet acc.packages fp_name pkgPads
      ⟨packages', parts', placements'⟩
  else acc

/-- `identity_used_packages_and_parts(board, ...)`. -/
def identity_used_packages_and_parts (board : Board)
    (ignore_top ignore_bottom use_value_for_part_id use_mixedcase : Bool) :
    IdentityResult :=
  board.footprints.foldl
    (processFootprint ignore_top ignore_bottom use_value_for_part_id use_mixedcase)
    ⟨[], [], []⟩

/-! ### `create_board_xml` (lines 203-245)

The emitted XML is modelled structurally; each `<placement>` node with its
nested `<location>` becomes a `PlacementOut` whose numeric attributes keep
their numeric values. -/

/-- One `<placement>` element of board.xml with its `<location>` child. -/
structure PlacementOut where
  id : String
  side : String
  partId : String
  ptype : String
  enabled : String
  locX : ℚ
  locY : ℚ
  locZ : ℚ
  locRotation : ℚ
  deriving Repr, DecidableEq, Inhabited

/-- The `<openpnp-board>` document written to board.xml. -/
structure BoardXmlOut where
  dimX : ℚ
  dimY : ℚ
  placements : List PlacementOut
  deriving Repr

/-- `create_board_xml(placements, board_origin_x, board_origin_y, x_size,
y_size, ...)`: note the `abs(...)` around the rounded offsets
(lines 238-239). -/
def create_board_xml (placements : List Placement)
    (board_origin_x board_origin_y x_size y_size : ℚ) : BoardXmlOut :=
  { dimX := round10 x_size,
    dimY := round10 y_size,
    placements := placements.map (fun placement =>
      let placement_x := placement.x - board_origin_x
      let placement_y := placement.y - board_origin_y
      { id := placement.id,
        side := placement.side,
        partId := placement.partId,
        ptype := placement.ptype,
        enabled := "true",
        locX := |round10 placement_x|,
        locY := |round10 placement_y|,
        locZ := 0,
        locRotation := placement.rotation }) }

/-! ### Association-list lemmas -/

theorem mem_dictSet {α : Type} {m : List (String × α)} {k : String} {v : α}
    {p : String × α} (hp : p ∈ dictSet m k v) : p ∈ m ∨ p = (k, v) := by
  unfold dictSet at hp
  split at hp
  · rcases List.mem_map.1 hp with ⟨q, hq, hqe⟩
    by_cases hk : q.1 = k
    · simp [hk] at hqe
      exact Or.inr hqe.symm
    · simp [hk] at hqe
      exact Or.inl (hqe ▸ hq)
  · rcases List.mem_append.1 hp with h | h
    · exact Or.inl h
    · simp at h
      exact Or.inr h

theorem alookup_append {α : Type} (k : String) (m l : List (String × α)) :
    alookup k (m ++ l) =
      match alookup k m with
      | some v => some v
      | none => alookup k l := by
  induction m with
  | nil => simp [alookup]
  | cons p rest ih =>
    by_cases hp : p.1 = k
    · simp [alookup, hp]
    · simpa [alookup, hp] using ih

theorem alookup_map_ne {α : Type} {k k' : String} (hkk : k' ≠ k)
    (m : List (String × α)) (v : α) :
    alookup k (m.map (fun p => if p.1 = k' then (k', v) else p)) = alookup k m := by
  induction m with
  | nil => simp [alookup]
  | cons p rest ih =>
    simp only [List.map_cons]
    by_cases hp : p.1 = k'
    · rw [if_pos hp]
      have hpk : ¬ p.1 = k := fun h => hkk (hp ▸ h)
      simp only [alookup, if_neg hkk, if_neg hpk]
      exact ih
    · rw [if_neg hp]
      by_cases hq : p.1 = k
      · simp only [alookup, if_pos hq]
      · simp only [alookup, if_neg hq]
        exact ih

theorem alookup_map_self {α : Type} {k : String} {m : List (String × α)}
    (h : (alookup k m).isSome) (v : α) :
    alookup k (m.map (fun p => if p.1 = k then (k, v) else p)) = some v := by
  induction m with
  | nil => simp [alookup] at h
  | cons p rest ih =>
    simp only [List.map_cons]
    by_cases hp : p.1 = k
    · rw [if_pos hp]
      simp [alookup]
    · rw [if_neg hp]
      simp only [alookup, if_neg hp] at h ⊢
      exact ih h

theorem alookup_dictSet {α : Type} (m : List (String × α)) (k k' : String) (v : α) :
    alookup k (dictSet m k' v) = if k' = k then some v else alookup k m := by
  unfold dictSet
  by_cases hsome : (alookup k' m).isSome = true
  · rw [if_pos hsome]
    by_cases hkk : k' = k
    · subst hkk
      rw [if_pos rfl]
      exact alookup_map_self hsome v
    · rw [if_neg hkk]
      exact alookup_map_ne hkk m v
  · rw [if_neg hsome]
    rw [alookup_append]
    by_cases hkk : k' = k
    · rw [if_pos hkk]
      rw [hkk] at hsome
      have hnone : alookup k m = none := by
        cases h : alookup k m with
        | none => rfl
        | some w => rw [h] at hsome; simp at hsome
      rw [hnone]
      simp [alookup, hkk]
    · rw [if_neg hkk]
      cases h : alookup k m with
      | none => simp [alookup, hkk]
      | some w => simp

theorem dictSet_isSome {α : Type} {m : List (String × α)} {k : String}
    (k' : String) (v : α) (h : (alookup k m).isSome = true) :
    (alookup k (dictSet m k' v)).isSome = true := by
  rw [alookup_dictSet]
  split
  · rfl
  · exact h

/-! ### The package-name rule (claim C6) -/

/-- The name rule the converter applies to a footprint's library name
(lines 377-381 and 399-401): map through the static table when the name is
a key, otherwise keep it, then force upper case unless `--use_mixedcase`. -/
def mappedPackageName (libItemName : String) (use_mixedcase : Bool) : String :=
  let base :=
    match alookup libItemName footprint_to_package_mapping with
    | some mapped => mapped
    | none => libItemName
  if use_mixedcase then base else pyUpper base

theorem mappedPackageName_unfold (lib : String) (um : Bool) :
    mappedPackageName lib um =
      if um then
        (match alookup lib footprint_to_package_mapping with
         | some mapped => mapped
         | none => lib)
      else
        pyUpper
          (match alookup lib footprint_to_package_mapping with
           | some mapped => mapped
           | none => lib) := rfl

theorem processFootprint_packages_cases (it ib uv um : Bool)
    (acc : IdentityResult) (x : Footprint) :
    (processFootprint it ib uv um acc x).packages = acc.packages ∨
      (strContains x.typeName "SMD" = true ∧
        (processFootprint it ib uv um acc x).packages =
          dictSet acc.packages (mappedPackageName x.libItemName um)
            (x.pads.foldl (processPad x (mappedPackageName x.libItemName um)) [])) := by
  unfold processFootprint
  by_cases hsmd : strContains x.typeName "SMD" = true
  · rw [if_pos hsmd]
    by_cases h1 : it = true ∧ x.layer = Layer.FCu
    · rw [if_pos h1]; exact Or.inl rfl
    · rw [if_neg h1]
      by_cases h2 : ib = true ∧ x.layer = Layer.BCu
      · rw [if_pos h2]; exact Or.inl rfl
      · rw [if_neg h2]
        exact Or.inr ⟨hsmd, rfl⟩
  · rw [if_neg hsmd]; exact Or.inl rfl

theorem processFootprint_parts_cases (it ib uv um : Bool)
    (acc : IdentityResult) (x : Footprint) :
    (processFootprint it ib uv um acc x).parts = acc.parts ∨
      (strContains x.typeName "SMD" = true ∧
        ∃ pname, (processFootprint it ib uv um acc x).parts =
          dictSet acc.parts pname (mappedPackageName x.libItemName um)) := by
  unfold processFootprint
  by_cases hsmd : strContains x.typeName "SMD" = true
  · rw [if_pos hsmd]
    by_cases h1 : it = true ∧ x.layer = Layer.FCu
    · rw [if_pos h1]; exact Or.inl rfl
    · rw [if_neg h1]
      by_cases h2 : ib = true ∧ x.layer = Layer.BCu
      · rw [if_pos h2]; exact Or.inl rfl
      · rw [if_neg h2]
        exact Or.inr ⟨hsmd, _, rfl⟩
  · rw [if_neg hsmd]; exact Or.inl rfl

theorem identity_fold_packages_mem (it ib uv um : Bool) (fps : List Footprint) :
    ∀ (acc : IdentityResult),
      ∀ kv ∈ (fps.foldl (processFootprint it ib uv um) acc).packages,
        kv ∈ acc.packages ∨
          ∃ fp ∈ fps, strContains fp.typeName "SMD" = true ∧
            kv.1 = mappedPackageName fp.libItemName um := by
  induction fps with
  | nil => intro acc kv hkv; exact Or.inl hkv
  | cons x xs ih =>
    intro acc kv hkv
    rw [List.foldl_cons] at hkv
    rcases ih _ kv hkv with h | ⟨fp, hfp, hsmd, hkey⟩
    · rcases processFootprint_packages_cases it ib uv um acc x with he | ⟨hsmd, he⟩
      · rw [he] at h; exact Or.inl h
      · rw [he] at h
        rcases mem_dictSet h with h' | h'
        · exact Or.inl h'
        · exact Or.inr ⟨x, List.mem_cons_self x xs, hsmd, by rw [h']⟩
    · exact Or.inr ⟨fp, List.mem_cons_of_mem x hfp, hsmd, hkey⟩

theorem identity_fold_parts_mem (it ib uv um : Bool) (fps : List Footprint) :
    ∀ (acc : IdentityResult),
      ∀ kv ∈ (fps.foldl (processFootprint it ib uv um) acc).parts,
        kv ∈ acc.parts ∨
          ∃ fp ∈ fps, strContains fp.typeName "SMD" = true ∧
            kv.2 = mappedPackageName fp.libItemName um := by
  induction fps with
  | nil => intro acc kv hkv; exact Or.inl hkv
  | cons x xs ih =>
    intro acc kv hkv
    rw [List.foldl_cons] at hkv
    rcases ih _ kv hkv with h | ⟨fp, hfp, hsmd, hkey⟩
    · rcases processFootprint_parts_cases it ib uv um acc x with he | ⟨hsmd, pname, he⟩
      · rw [he] at h; exact Or.inl h
      · rw [he] at h
        rcases mem_dictSet h with h' | h'
        · exact Or.inl h'
        · exact Or.inr ⟨x, List.mem_cons_self x xs, hsmd, by rw [h']⟩
    · exact Or.inr ⟨fp, List.mem_cons_of_mem x hfp, hsmd, hkey⟩

theorem identity_fold_packages_isSome_mono (it ib uv um : Bool)
    (fps : List Footprint) :
    ∀ (acc : IdentityResult) (k : String),
      (alookup k acc.packages).isSome = true →
      (alookup k ((fps.foldl (processFootprint it ib uv um) acc).packages)).isSome = true := by
  induction fps with
  | nil => intro acc k h; exact h
  | cons x xs ih =>
    intro acc k h
    rw [List.foldl_cons]
    refine ih _ k ?_
    rcases processFootprint_packages_cases it ib uv um acc x with he | ⟨_, he⟩
    · rw [he]; exact h
    · rw [he]; exact dictSet_isSome _ _ h

theorem identity_fold_packages_present (it ib uv um : Bool) (fps : List Footprint) :
    ∀ (acc : IdentityResult), ∀ fp ∈ fps,
      strContains fp.typeName "SMD" = true →
      ¬(it = true ∧ fp.layer = Layer.FCu) →
      ¬(ib = true ∧ fp.layer = Layer.BCu) →
      (alookup (mappedPackageName fp.libItemName um)
        ((fps.foldl (processFootprint it ib uv um) acc).packages)).isSome = true := by
  induction fps with
  | nil => intro acc fp hfp; exact absurd hfp (List.not_mem_nil fp)
  | cons x xs ih =>
    intro acc fp hfp hsmd h1 h2
    rw [List.foldl_cons]
    rcases List.mem_cons.1 hfp with rfl | hfp'
    · refine identity_fold_packages_isSome_mono it ib uv um xs _ _ ?_
      unfold processFootprint
      rw [if_pos hsmd, if_neg h1, if_neg h2]
      dsimp only
      rw [← mappedPackageName_unfold fp.libItemName um]
      rw [alookup_dictSet, if_pos rfl]
      rfl
    · exact ih _ fp hfp' hsmd h1 h2

/-- C6: the package name used for every processed SMD footprint is determined
by the static lookup table — the table's image of the library name when the
name is a key, the library name itself otherwise, forced to upper case unless
`use_mixedcase`.  Stated as: (1) every processed SMD footprint contributes a
package entry under exactly that name, (2) every package key and (3) every
part's package value arises as that name for some SMD footprint of the board,
and (4) the name rule unfolded into the claim's lookup/upper-case form. -/
theorem C6_package_name_rule (board : Board) (it ib uv um : Bool) :
    (∀ fp ∈ board.footprints,
        strContains fp.typeName "SMD" = true →
        ¬(it = true ∧ fp.layer = Layer.FCu) →
        ¬(ib = true ∧ fp.layer = Layer.BCu) →
        (alookup (mappedPackageName fp.libItemName um)
          (identity_used_packages_and_parts board it ib uv um).packages).isSome = true) ∧
    (∀ kv ∈ (identity_used_packages_and_parts board it ib uv um).packages,
        ∃ fp ∈ board.footprints, strContains fp.typeName "SMD" = true ∧
          kv.1 = mappedPackageName fp.libItemName um) ∧
    (∀ kv ∈ (identity_used_packages_and_parts board it ib uv um).parts,
        ∃ fp ∈ board.footprints, strContains fp.typeName "SMD" = true ∧
          kv.2 = mappedPackageName fp.libItemName um) ∧
    (∀ (lib : String) (mixed : Bool),
        mappedPackageName lib mixed =
          if mixed then (alookup lib footprint_to_package_mapping).getD lib
          else pyUpper ((alookup lib footprint_to_package_mapping).getD lib)) := by
  refine ⟨?_, ?_, ?_, ?_⟩
  · intro fp hfp hsmd h1 h2
    exact identity_fold_packages_present it ib uv um board.footprints _ fp hfp hsmd h1 h2
  · intro kv hkv
    rcases identity_fold_packages_mem it ib uv um board.footprints _ kv hkv with h | h
    · exact absurd h (List.not_mem_nil kv)
    · exact h
  · intro kv hkv
    rcases identity_fold_parts_mem it ib uv um board.footprints _ kv hkv with h | h
    · exact absurd h (List.not_mem_nil kv)
    · exact h
  · intro lib mixed
    unfold mappedPackageName
    cases h : alookup lib footprint_to_package_mapping <;> simp [h, Option.getD]

/-! ### Pad geometry (claim C2) -/

theorem processPad_fold_mem (fp : Footprint) (fp_name : String) (padsList : List Pad) :
    ∀ (acc : List (String × PadRecord)),
      ∀ pr ∈ padsList.foldl (processPad fp fp_name) acc,
        pr ∈ acc ∨
          ∃ pad ∈ padsList, pad.onCopper = true ∧
            pr.1 = effectivePadName fp_name pad ∧
            pr.2.x = iu2mm (pad.posX - fp.posX) ∧
            pr.2.y = iu2mm (pad.posY - fp.posY) ∧
            pr.2.w = iu2mm pad.sizeX ∧
            pr.2.h = iu2mm pad.sizeY := by
  induction padsList with
  | nil => intro acc pr hpr; exact Or.inl hpr
  | cons p ps ih =>
    intro acc pr hpr
    rw [List.foldl_cons] at hpr
    rcases ih _ pr hpr with h | ⟨pad, hpad, hcu, h1, h2, h3, h4, h5⟩
    · unfold processPad at h
      dsimp only at h
      by_cases hcu : p.onCopper = true
      · rw [if_pos hcu] at h
        have hmem :
            pr ∈ dictSet acc (effectivePadName fp_name p)
                ⟨iu2mm p.sizeX, iu2mm p.sizeY, iu2mm (p.posX - fp.posX),
                  iu2mm (p.posY - fp.posY), p.shape, some (iu2mm p.roundRectCornerRadius)⟩ ∨
            pr ∈ dictSet acc (effectivePadName fp_name p)
                ⟨iu2mm p.sizeX, iu2mm p.sizeY, iu2mm (p.posX - fp.posX),
                  iu2mm (p.posY - fp.posY), p.shape, some (iu2mm p.boundingRadius)⟩ ∨
            pr ∈ dictSet acc (effectivePadName fp_name p)
                ⟨iu2mm p.sizeX, iu2mm p.sizeY, iu2mm (p.posX - fp.posX),
                  iu2mm (p.posY - fp.posY), p.shape, none⟩ := by
          by_cases hs1 : p.shape = "ROUNDRECT"
          · rw [if_pos hs1] at h; exact Or.inl h
          · rw [if_neg hs1] at h
            by_cases hs2 : p.shape = "CIRCLE"
            · rw [if_pos hs2] at h; exact Or.inr (Or.inl h)
            · rw [if_neg hs2] at h; exact Or.inr (Or.inr h)
        rcases hmem with hm | hm | hm <;>
          · rcases mem_dictSet hm with h' | h'
            · exact Or.inl h'
            · refine Or.inr ⟨p, List.mem_cons_self p ps, hcu, ?_⟩
              rw [h']
              exact ⟨rfl, rfl, rfl, rfl, rfl⟩
      · rw [if_neg hcu] at h
        exact Or.inl h
    · exact Or.inr ⟨pad, List.mem_cons_of_mem p hpad, hcu, h1, h2, h3, h4, h5⟩

theorem identity_fold_packages_val (it ib uv um : Bool) (fps : List Footprint) :
    ∀ (acc : IdentityResult),
      ∀ kv ∈ (fps.foldl (processFootprint it ib uv um) acc).packages,
        kv ∈ acc.packages ∨
          ∃ fp ∈ fps, strContains fp.typeName "SMD" = true ∧
            kv.1 = mappedPackageName fp.libItemName um ∧
            kv.2 = fp.pads.foldl (processPad fp (mappedPackageName fp.libItemName um)) [] := by
  induction fps with
  | nil => intro acc kv hkv; exact Or.inl hkv
  | cons x xs ih =>
    intro acc kv hkv
    rw [List.foldl_cons] at hkv
    rcases ih _ kv hkv with h | ⟨fp, hfp, hsmd, hkey, hval⟩
    · rcases processFootprint_packages_cases it ib uv um acc x with he | ⟨hsmd, he⟩
      · rw [he] at h; exact Or.inl h
      · rw [he] at h
        rcases mem_dictSet h with h' | h'
        · exact Or.inl h'
        · exact Or.inr ⟨x, List.mem_cons_self x xs, hsmd, by rw [h'], by rw [h']⟩
    · exact Or.inr ⟨fp, List.mem_cons_of_mem x hfp, hsmd, hkey, hval⟩

/-- C2 (amended): every pad record stored in the `packages` dict carries the
geometry of one of the board's copper-layer pads, exactly as the source
computes it: `x`/`y` are that pad's position minus its footprint's position
and `w`/`h` are that pad's size, all converted from KiCad internal units to
millimetres.  (The record of a given pad can be overwritten by a
later copper pad stored under the same package and pad name, so the
association is existential, not per-pad.) -/
theorem C2_pad_record_geometry (board : Board) (it ib uv um : Bool) :
    ∀ kv ∈ (identity_used_packages_and_parts board it ib uv um).packages,
      ∀ pr ∈ kv.2,
        ∃ fp ∈ board.footprints, ∃ pad ∈ fp.pads,
          strContains fp.typeName "SMD" = true ∧
          pad.onCopper = true ∧
          pr.1 = effectivePadName (mappedPackageName fp.libItemName um) pad ∧
          pr.2.x = iu2mm (pad.posX - fp.posX) ∧
          pr.2.y = iu2mm (pad.posY - fp.posY) ∧
          pr.2.w = iu2mm pad.sizeX ∧
          pr.2.h = iu2mm pad.sizeY := by
  intro kv hkv pr hpr
  rcases identity_fold_packages_val it ib uv um board.footprints _ kv hkv with h | ⟨fp, hfp, hsmd, _, hval⟩
  · exact absurd h (List.not_mem_nil kv)
  · rw [hval] at hpr
    rcases processPad_fold_mem fp _ fp.pads [] pr hpr with h | ⟨pad, hpad, hcu, h1, h2, h3, h4, h5⟩
    · exact absurd h (List.not_mem_nil pr)
    · exact ⟨fp, hfp, pad, hpad, hsmd, hcu, h1, h2, h3, h4, h5⟩

/-! ### Placement coordinates written to board.xml (claim C1) -/

theorem processFootprint_placements_cases (it ib uv um : Bool)
    (acc : IdentityResult) (x : Footprint) :
    (processFootprint it ib uv um acc x).placements = acc.placements ∨
      (strContains x.typeName "SMD" = true ∧
        ∃ pl, (processFootprint it ib uv um acc x).placements = acc.placements ++ [pl] ∧
          pl.x = iu2mm x.posX ∧ pl.y = iu2mm x.posY ∧
          pl.rotation = x.orientationDegrees) := by
  unfold processFootprint
  by_cases hsmd : strContains x.typeName "SMD" = true
  · rw [if_pos hsmd]
    by_cases h1 : it = true ∧ x.layer = Layer.FCu
    · rw [if_pos h1]; exact Or.inl rfl
    · rw [if_neg h1]
      by_cases h2 : ib = true ∧ x.layer = Layer.BCu
      · rw [if_pos h2]; exact Or.inl rfl
      · rw [if_neg h2]
        exact Or.inr ⟨hsmd, _, rfl, rfl, rfl, rfl⟩
  · rw [if_neg hsmd]; exact Or.inl rfl

theorem identity_fold_placements_mem (it ib uv um : Bool) (fps : List Footprint) :
    ∀ (acc : IdentityResult),
      ∀ pl ∈ (fps.foldl (processFootprint it ib uv um) acc).placements,
        pl ∈ acc.placements ∨
          ∃ fp ∈ fps, strContains fp.typeName "SMD" = true ∧
            pl.x = iu2mm fp.posX ∧ pl.y = iu2mm fp.posY ∧
            pl.rotation = fp.orientationDegrees := by
  induction fps with
  | nil => intro acc pl hpl; exact Or.inl hpl
  | cons x xs ih =>
    intro acc pl hpl
    rw [List.foldl_cons] at hpl
    rcases ih _ pl hpl with h | ⟨fp, hfp, hsmd, h1, h2, h3⟩
    · rcases processFootprint_placements_cases it ib uv um acc x with he | ⟨hsmd, pl', he, h1, h2, h3⟩
      · rw [he] at h; exact Or.inl h
      · rw [he] at h
        rcases List.mem_append.1 h with h' | h'
        · exact Or.inl h'
        · simp only [List.mem_singleton] at h'
          subst h'
          exact Or.inr ⟨x, List.mem_cons_self x xs, hsmd, h1, h2, h3⟩
    · exact Or.inr ⟨fp, List.mem_cons_of_mem x hfp, hsmd, h1, h2, h3⟩

/-- C1 (amended): every `<location>` written to board.xml carries the
*absolute value* of the footprint's board position minus the board origin,
rounded to 10 decimal places (the source wraps the rounded offset in
`abs(...)`,  lines 238-239), and the written rotation equals the footprint's
orientation in degrees. -/
theorem C1_board_xml_location (board : Board) (it ib uv um : Bool)
    (board_origin_x board_origin_y x_size y_size : ℚ) :
    ∀ out ∈ (create_board_xml
        (identity_used_packages_and_parts board it ib uv um).placements
        board_origin_x board_origin_y x_size y_size).placements,
      ∃ fp ∈ board.footprints,
        strContains fp.typeName "SMD" = true ∧
        out.locX = |round10 (iu2mm fp.posX - board_origin_x)| ∧
        out.locY = |round10 (iu2mm fp.posY - board_origin_y)| ∧
        out.locZ = 0 ∧
        out.locRotation = fp.orientationDegrees := by
  intro out hout
  unfold create_board_xml at hout
  dsimp only at hout
  rcases List.mem_map.1 hout with ⟨pl, hpl, hple⟩
  rcases identity_fold_placements_mem it ib uv um board.footprints _ pl hpl with h | ⟨fp, hfp, hsmd, h1, h2, h3⟩
  · exact absurd h (List.not_mem_nil pl)
  · refine ⟨fp, hfp, hsmd, ?_, ?_, ?_, ?_⟩
    · rw [← hple]; dsimp only; rw [h1]
    · rw [← hple]; dsimp only; rw [h2]
    · rw [← hple]
    · rw [← hple]; dsimp only; rw [h3]

/-! ### Concrete boards for counterexamples and witnesses -/

/-- A 0402 resistor footprint with one round-rect pad. -/
def demoPadR : Pad :=
  { name := "1", posX := 5480000, posY := 2000000, sizeX := 720000,
    sizeY := 640000, shape := "ROUNDRECT", onCopper := true,
    roundRectCornerRadius := 160000 }

def demoFpR : Footprint :=
  { reference := "R1", value := "10K", libItemName := "R_0402_1005Metric",
    typeName := "SMD", layer := Layer.FCu, posX := 5000000, posY := 2000000,
    orientationDegrees := 90, pads := [demoPadR] }

def demoBoard : Board := ⟨[demoFpR]⟩

/-- A footprint at board position (0, 0) (used against an origin of (1, 1)
millimetres, where the difference is negative). -/
def cbFp : Footprint :=
  { reference := "P1", value := "V", libItemName := "PKG",
    typeName := "SMD", layer := Layer.FCu, posX := 0, posY := 0,
    orientationDegrees := 0, pads := [] }

def cbBoard : Board := ⟨[cbFp]⟩

/-- Two copper pads sharing the pad name "1" at different offsets. -/
def dupPad1 : Pad :=
  { name := "1", posX := 1000000, posY := 0, sizeX := 1000000,
    sizeY := 1000000, shape := "RECT", onCopper := true }

def dupPad2 : Pad :=
  { name := "1", posX := 2000000, posY := 0, sizeX := 1000000,
    sizeY := 1000000, shape := "RECT", onCopper := true }

def dupFp : Footprint :=
  { reference := "D1", value := "V", libItemName := "DUPPKG",
    typeName := "SMD", layer := Layer.FCu, posX := 0, posY := 0,
    orientationDegrees := 0, pads := [dupPad1, dupPad2] }

def dupBoard : Board := ⟨[dupFp]⟩

/-- C1 counterexample: with the board origin at (1, 1) mm and a footprint at
(0, 0), the emitted x coordinate is `1` (the absolute value), while the
claim's formula `round(placement_x - board_origin_x, 10)` gives `-1`. -/
theorem C1_counterexample :
    ((create_board_xml
        (identity_used_packages_and_parts cbBoard false false false false).placements
        1 1 10 10).placements.map PlacementOut.locX =
      [|round10 (iu2mm cbFp.posX - 1)|]) ∧
    |round10 (iu2mm cbFp.posX - 1)| = 1 ∧
    round10 (iu2mm cbFp.posX - 1) = -1 ∧
    ((1 : ℚ) ≠ -1) := by
  refine ⟨rfl, ?_, ?_, by norm_num⟩
  · have h : round10 (iu2mm cbFp.posX - 1) = -1 := by
      show round10 (iu2mm 0 - 1) = -1
      rw [round10, iu2mm]
      rw [show ((0 : Int) : ℚ) / 1000000 - 1 = -1 by norm_num]
      rw [show (-1 : ℚ) * 10000000000 = -10000000000 by norm_num]
      rw [show round (-10000000000 : ℚ) = -10000000000 by
        rw [round_eq]; norm_num]
      norm_num
    rw [h]
    norm_num
  · show round10 (iu2mm 0 - 1) = -1
    rw [round10, iu2mm]
    rw [show ((0 : Int) : ℚ) / 1000000 - 1 = -1 by norm_num]
    rw [show (-1 : ℚ) * 10000000000 = -10000000000 by norm_num]
    rw [show round (-10000000000 : ℚ) = -10000000000 by
      rw [round_eq]; norm_num]
    norm_num

/-- The first placement node emitted for `cbBoard` (used as the C1 witness
instance). -/
def demoOut : PlacementOut :=
  ((create_board_xml
      (identity_used_packages_and_parts cbBoard false false false false).placements
      1 1 10 10).placements).headI

theorem C1_board_xml_location_witness :
    (demoOut ∈ (create_board_xml
        (identity_used_packages_and_parts cbBoard false false false false).placements
        1 1 10 10).placements) ∧
    (∃ fp ∈ cbBoard.footprints,
        strContains fp.typeName "SMD" = true ∧
        demoOut.locX = |round10 (iu2mm fp.posX - 1)| ∧
        demoOut.locY = |round10 (iu2mm fp.posY - 1)| ∧
        demoOut.locZ = 0 ∧
        demoOut.locRotation = fp.orientationDegrees) :=
  ⟨List.mem_cons_self _ _,
    C1_board_xml_location cbBoard false false false false 1 1 10 10 demoOut
      (List.mem_cons_self _ _)⟩

/-- C2 counterexample: `dupPad1` is a copper pad of the SMD footprint
`dupFp`, but the record stored for its package under its pad name carries
the offset of `dupPad2` (the later pad with the same name), not
`dupPad1`'s own offset. -/
theorem C2_counterexample :
    dupPad1 ∈ dupFp.pads ∧ dupPad1.onCopper = true ∧
    strContains dupFp.typeName "SMD" = true ∧
    (∃ pads pr,
      alookup "DUPPKG"
        (identity_used_packages_and_parts dupBoard false false false false).packages
        = some pads ∧
      alookup (effectivePadName "DUPPKG" dupPad1) pads = some pr ∧
      pr.x ≠ iu2mm (dupPad1.posX - dupFp.posX)) := by
  refine ⟨by decide, rfl, rfl, ?_⟩
  refine ⟨_, _, rfl, rfl, ?_⟩
  show iu2mm (dupPad2.posX - dupFp.posX) ≠ iu2mm (dupPad1.posX - dupFp.posX)
  show iu2mm (2000000 - 0) ≠ iu2mm (1000000 - 0)
  rw [iu2mm, iu2mm]
  norm_num

/-- The package and pad entries produced for `dupBoard` (used as the C2
witness instance). -/
def demoPkgEntry : String × List (String × PadRecord) :=
  ((identity_used_packages_and_parts dupBoard false false false false).packages).headI

def demoPadEntry : String × PadRecord := demoPkgEntry.2.headI

theorem C2_pad_record_geometry_witness :
    (demoPkgEntry ∈ (identity_used_packages_and_parts dupBoard false false false false).packages) ∧
    (demoPadEntry ∈ demoPkgEntry.2) ∧
    (∃ fp ∈ dupBoard.footprints, ∃ pad ∈ fp.pads,
        strContains fp.typeName "SMD" = true ∧
        pad.onCopper = true ∧
        demoPadEntry.1 = effectivePadName (mappedPackageName fp.libItemName false) pad ∧
        demoPadEntry.2.x = iu2mm (pad.posX - fp.posX) ∧
        demoPadEntry.2.y = iu2mm (pad.posY - fp.posY) ∧
        demoPadEntry.2.w = iu2mm pad.sizeX ∧
        demoPadEntry.2.h = iu2mm pad.sizeY) :=
  ⟨List.mem_cons_self _ _, List.mem_cons_self _ _,
    C2_pad_record_geometry dupBoard false false false false demoPkgEntry
      (List.mem_cons_self _ _) demoPadEntry (List.mem_cons_self _ _)⟩

theorem C6_package_name_rule_witness :
    (demoFpR ∈ demoBoard.footprints ∧
      strContains demoFpR.typeName "SMD" = true ∧
      ¬(false = true ∧ demoFpR.layer = Layer.FCu) ∧
      ¬(false = true ∧ demoFpR.layer = Layer.BCu)) ∧
    (alookup (mappedPackageName demoFpR.libItemName false)
      (identity_used_packages_and_parts demoBoard false false false false).packages).isSome
      = true :=
  ⟨⟨List.mem_cons_self _ _, rfl, by simp, by simp⟩,
    (C6_package_name_rule demoBoard false false false false).1 demoFpR
      (List.mem_cons_self _ _) rfl (by simp) (by simp)⟩

/-! ### XML documents (`xml.etree.ElementTree` trees)

Elements carry their tag, attribute list, text and children.  `findall
(".//tag[@id=v]")` becomes a recursive count of matching descendants. -/

inductive XmlElem where
  | mk (tag : String) (attrs : List (String × String)) (text : String)
      (children : List XmlElem)
  deriving Repr

def tagOf : XmlElem → String
  | .mk t _ _ _ => t

def attrsOf : XmlElem → List (String × String)
  | .mk _ a _ _ => a

def textOf : XmlElem → String
  | .mk _ _ tx _ => tx

def childrenOf : XmlElem → List XmlElem
  | .mk _ _ _ cs => cs

/-- Does the element match `tag[@id=idv]`? -/
def matchesId (tag idv : String) (e : XmlElem) : Bool :=
  decide (tagOf e = tag ∧ alookup "id" (attrsOf e) = some idv)

mutual

/-- Number of descendants of `e` (excluding `e` itself) matching
`.//tag[@id=idv]`; this is `len(tree.findall(".//tag[@id='idv']"))`. -/
def countSub (tag idv : String) : XmlElem → Nat
  | .mk _ _ _ cs => countSubList tag idv cs

def countSubList (tag idv : String) : List XmlElem → Nat
  | [] => 0
  | c :: cs =>
    (if matchesId tag idv c then 1 else 0) + countSub tag idv c +
      countSubList tag idv cs

end

/-- `ET.SubElement(root, ...)`: append one child to the root element. -/
def appendChild : XmlElem → XmlElem → XmlElem
  | .mk t a tx cs, e => .mk t a tx (cs ++ [e])

/-- Append a list of children to the root element. -/
def appendChildren : XmlElem → List XmlElem → XmlElem
  | .mk t a tx cs, l => .mk t a tx (cs ++ l)

theorem appendChildren_nil (r : XmlElem) : appendChildren r [] = r := by
  cases r; simp [appendChildren]

theorem appendChild_appendChildren (r : XmlElem) (l : List XmlElem) (e : XmlElem) :
    appendChild (appendChildren r l) e = appendChildren r (l ++ [e]) := by
  cases r; simp [appendChild, appendChildren]

theorem childrenOf_appendChildren (r : XmlElem) (l : List XmlElem) :
    childrenOf (appendChildren r l) = childrenOf r ++ l := by
  cases r; simp [appendChildren, childrenOf]

theorem tagOf_appendChildren (r : XmlElem) (l : List XmlElem) :
    tagOf (appendChildren r l) = tagOf r := by
  cases r; simp [appendChildren, tagOf]

theorem attrsOf_appendChildren (r : XmlElem) (l : List XmlElem) :
    attrsOf (appendChildren r l) = attrsOf r := by
  cases r; simp [appendChildren, attrsOf]

theorem textOf_appendChildren (r : XmlElem) (l : List XmlElem) :
    textOf (appendChildren r l) = textOf r := by
  cases r; simp [appendChildren, textOf]

theorem countSubList_append (tag idv : String) (l1 l2 : List XmlElem) :
    countSubList tag idv (l1 ++ l2) =
      countSubList tag idv l1 + countSubList tag idv l2 := by
  induction l1 with
  | nil => simp [countSubList]
  | cons c cs ih => simp [countSubList, ih]; ring

theorem countSub_appendChildren (tag idv : String) (r : XmlElem) (l : List XmlElem) :
    countSub tag idv (appendChildren r l) =
      countSub tag idv r + countSubList tag idv l := by
  cases r
  simp [appendChildren, countSub, countSubList_append]

theorem countSub_appendChild (tag idv : String) (r e : XmlElem) :
    countSub tag idv (appendChild r e) =
      countSub tag idv r + ((if matchesId tag idv e then 1 else 0) + countSub tag idv e) := by
  cases r
  simp [appendChild, countSub, countSubList_append, countSubList]

/-! ### `update_parts_xml` (lines 247-273) -/

/-- The `<part>` element created for a missing part id (lines 257-265):
height is `part_height_mapping[package]` when present, else `"0.0"`. -/
def partElem (pid pkg : String) : XmlElem :=
  .mk "part"
    [("id", pid), ("name", pid), ("height-units", "Millimeters"),
      ("height", (alookup pkg part_height_mapping).getD "0.0"),
      ("package-id", pkg), ("speed", "1.0"), ("pick-retry-count", "0")]
    "" []

/-- Result of one of the `update_*_xml` functions: the (possibly) mutated
tree and whether the file was rewritten. -/
structure UpdateOut where
  root : XmlElem
  written : Bool
  deriving Repr

def update_parts_xml (parts : List (String × String)) (root : XmlElem)
    (is_read_only : Bool) : UpdateOut :=
  let st := parts.foldl
    (fun st pp =>
      if countSub "part" pp.1 st.1 = 0 then
        (appendChild st.1 (partElem pp.1 pp.2), true)
      else st)
    (root, false)
  ⟨st.1, !is_read_only && st.2⟩

/-! ### `update_packages_xml` (lines 275-361) -/

/-- `package_size_mapping[package]['w']` with default `'0.0'`. -/
def packageSizeW (pkg : String) : String :=
  match alookup pkg package_size_mapping with
  | some hw => hw.2
  | none => "0.0"

/-- `package_size_mapping[package]['h']` with default `'0.0'`. -/
def packageSizeH (pkg : String) : String :=
  match alookup pkg package_size_mapping with
  | some hw => hw.1
  | none => "0.0"

/-- The `<pad>` element written for one pad record (lines 306-350). -/
def padElemXml (padName : String) (values : PadRecord) : XmlElem :=
  if values.shape = "CIRCLE" then
    if strContains (pyUpper padName) "FIDUCIAL" then
      .mk "pad"
        [("name", padName), ("x", "0.0"), ("y", "0.0"),
          ("width", toString values.w), ("height", toString values.h),
          ("rotation", "0.0"), ("roundness", "100.0")] "" []
    else
      .mk "pad"
        [("name", padName), ("x", toString values.x), ("y", toString values.y),
          ("width", toString values.w), ("height", toString values.h),
          ("rotation", "0.0"), ("roundness", "100.0")] "" []
  else if values.shape = "ROUNDRECT" then
    .mk "pad"
      [("name", padName), ("x", toString values.x), ("y", toString values.y),
        ("width", toString values.w), ("height", toString values.h),
        ("rotation", "0.0")] "" []
  else
    .mk "pad"
      [("name", padName), ("x", toString values.x), ("y", toString values.y),
        ("width", toString values.w), ("height", toString values.h),
        ("rotation", "0.0")] "" []

/-- The `<package>` element created for a missing package id
(lines 287-350): a `<footprint>` child carrying the pads and a
`<compatible-nozzle-tip-ids>` child carrying the nozzle names. -/
def packageElem (package : String) (padsDict : List (String × PadRecord))
    (usable_nozzles : List String) : XmlElem :=
  let footprint_elem0 : XmlElem :=
    .mk "footprint"
      [("units", "Millimeters"), ("body-width", packageSizeW package),
        ("body-height", packageSizeH package)] "" []
  let nozzles : XmlElem :=
    .mk "compatible-nozzle-tip-ids" [("class", "java.util.ArrayList")] ""
      (usable_nozzles.map (fun n => XmlElem.mk "string" [] n []))
  let footprint_elem :=
    padsDict.foldl (fun fe pp => appendChild fe (padElemXml pp.1 pp.2)) footprint_elem0
  .mk "package"
    [("version", "1.1"), ("id", package), ("description", ""),
      ("pick-vacuum-level", "0.0"), ("place-blow-off-level", "0.0")] ""
    [footprint_elem, nozzles]

def update_packages_xml (packages : List (String × List (String × PadRecord)))
    (root : XmlElem) (usable_nozzles : List String) (is_read_only : Bool) :
    UpdateOut :=
  let st := packages.foldl
    (fun st pp =>
      if countSub "package" pp.1 st.1 = 0 then
        (appendChild st.1 (packageElem pp.1 pp.2 usable_nozzles), true)
      else st)
    (root, false)
  ⟨st.1, !is_read_only && st.2⟩

/-! ### Frame lemmas about the `update_*_xml` fold -/

section UpdateFold

variable {β : Type} (tag : String) (mk : String × β → XmlElem)

/-- The step both update functions iterate: create-and-append when no
element with the id exists anywhere in the current tree. -/
def updateStep (st : XmlElem × Bool) (pp : String × β) : XmlElem × Bool :=
  if countSub tag pp.1 st.1 = 0 then (appendChild st.1 (mk pp), true) else st

theorem updateFold_spec (ps : List (String × β)) :
    ∀ st : XmlElem × Bool,
      ∃ added : List XmlElem,
        (ps.foldl (updateStep tag mk) st).1 = appendChildren st.1 added ∧
        (ps.foldl (updateStep tag mk) st).2 = (st.2 || !added.isEmpty) ∧
        ∀ e ∈ added, ∃ pp ∈ ps, e = mk pp ∧ countSub tag pp.1 st.1 = 0 := by
  induction ps with
  | nil =>
    intro st
    exact ⟨[], by simp [appendChildren_nil], by simp, by simp⟩
  | cons pp rest ih =>
    intro st
    rw [List.foldl_cons]
    by_cases hc : countSub tag pp.1 st.1 = 0
    · have hstep : updateStep tag mk st pp = (appendChild st.1 (mk pp), true) := by
        unfold updateStep; rw [if_pos hc]
      rw [hstep]
      obtain ⟨added, h1, h2, h3⟩ := ih (appendChild st.1 (mk pp), true)
      refine ⟨mk pp :: added, ?_, ?_, ?_⟩
      · rw [h1]
        show appendChildren (appendChild st.1 (mk pp)) added = _
        have : appendChild st.1 (mk pp) = appendChildren st.1 [mk pp] := by
          cases st1 : st.1; simp [appendChild, appendChildren]
        rw [this]
        cases st.1; simp [appendChildren]
      · rw [h2]; simp
      · intro e he
        rcases List.mem_cons.1 he with rfl | he'
        · exact ⟨pp, List.mem_cons_self pp rest, rfl, hc⟩
        · obtain ⟨qq, hqq, he2, hcnt⟩ := h3 e he'
          refine ⟨qq, List.mem_cons_of_mem pp hqq, he2, ?_⟩
          rw [countSub_appendChild] at hcnt
          omega
    · have hstep : updateStep tag mk st pp = st := by
        unfold updateStep; rw [if_neg hc]
      rw [hstep]
      obtain ⟨added, h1, h2, h3⟩ := ih st
      exact ⟨added, h1, h2, fun e he =>
        (h3 e he).imp fun qq h => ⟨List.mem_cons_of_mem pp h.1, h.2⟩⟩

/-- A matcher hypothesis: the created element matches `tag[@id=k]` exactly
for its own key and has no matching descendants. -/
def GoodMk : Prop :=
  ∀ (pp : String × β) (k : String),
    (matchesId tag k (mk pp) = decide (pp.1 = k)) ∧ countSub tag k (mk pp) = 0

theorem updateFold_count_stable (hmk : GoodMk tag mk) (ps : List (String × β)) :
    ∀ (st : XmlElem × Bool) (k : String), countSub tag k st.1 ≠ 0 →
      countSub tag k ((ps.foldl (updateStep tag mk) st).1) = countSub tag k st.1 := by
  induction ps with
  | nil => intro st k _; rfl
  | cons pp rest ih =>
    intro st k hk
    rw [List.foldl_cons]
    by_cases hc : countSub tag pp.1 st.1 = 0
    · have hstep : updateStep tag mk st pp = (appendChild st.1 (mk pp), true) := by
        unfold updateStep; rw [if_pos hc]
      rw [hstep]
      have hne : pp.1 ≠ k := fun he => hk (he ▸ hc)
      have hcount : countSub tag k (appendChild st.1 (mk pp)) = countSub tag k st.1 := by
        rw [countSub_appendChild, (hmk pp k).2, (hmk pp k).1]
        simp [hne]
      rw [ih (appendChild st.1 (mk pp), true) k (by rw [hcount]; exact hk)]
      exact hcount
    · have hstep : updateStep tag mk st pp = st := by
        unfold updateStep; rw [if_neg hc]
      rw [hstep]
      exact ih st k hk

theorem updateFold_count_one (hmk : GoodMk tag mk) (ps : List (String × β)) :
    ∀ (st : XmlElem × Bool) (k : String),
      countSub tag k st.1 = 0 → k ∈ ps.map Prod.fst →
      countSub tag k ((ps.foldl (updateStep tag mk) st).1) = 1 := by
  induction ps with
  | nil => intro st k _ hmem; simp at hmem
  | cons pp rest ih =>
    intro st k hk hmem
    rw [List.foldl_cons]
    by_cases hpk : pp.1 = k
    · have hc : countSub tag pp.1 st.1 = 0 := hpk ▸ hk
      have hstep : updateStep tag mk st pp = (appendChild st.1 (mk pp), true) := by
        unfold updateStep; rw [if_pos hc]
      rw [hstep]
      have hone : countSub tag k (appendChild st.1 (mk pp)) = 1 := by
        rw [countSub_appendChild, (hmk pp k).2, (hmk pp k).1, hk]
        simp [hpk]
      rw [updateFold_count_stable tag mk hmk rest (appendChild st.1 (mk pp), true) k
        (by rw [hone]; omega)]
      exact hone
    · have hmem' : k ∈ rest.map Prod.fst := by
        rcases List.mem_map.1 hmem with ⟨qq, hqq, hqk⟩
        rcases List.mem_cons.1 hqq with rfl | hqq'
        · exact absurd hqk hpk
        · exact List.mem_map.2 ⟨qq, hqq', hqk⟩
      by_cases hc : countSub tag pp.1 st.1 = 0
      · have hstep : updateStep tag mk st pp = (appendChild st.1 (mk pp), true) := by
          unfold updateStep; rw [if_pos hc]
        rw [hstep]
        refine ih (appendChild st.1 (mk pp), true) k ?_ hmem'
        rw [countSub_appendChild, (hmk pp k).2, (hmk pp k).1, hk]
        simp [hpk]
      · have hstep : updateStep tag mk st pp = st := by
          unfold updateStep; rw [if_neg hc]
        rw [hstep]
        exact ih st k hk hmem'

theorem updateFold_mem_added (hmk : GoodMk tag mk) (ps : List (String × β)) :
    ∀ (st : XmlElem × Bool) (pp : String × β),
      pp ∈ ps → countSub tag pp.1 st.1 = 0 →
      (∀ qq ∈ ps, qq.1 = pp.1 → qq = pp) →
      mk pp ∈ childrenOf ((ps.foldl (updateStep tag mk) st).1) := by
  induction ps with
  | nil => intro st pp hpp; exact absurd hpp (List.not_mem_nil pp)
  | cons qq rest ih =>
    intro st pp hpp hk huniq
    rw [List.foldl_cons]
    by_cases hqp : qq = pp
    · subst hqp
      have hstep : updateStep tag mk st qq = (appendChild st.1 (mk qq), true) := by
        unfold updateStep; rw [if_pos hk]
      rw [hstep]
      obtain ⟨added, h1, _, _⟩ := updateFold_spec tag mk rest (appendChild st.1 (mk qq), true)
      rw [h1, childrenOf_appendChildren]
      refine List.mem_append.2 (Or.inl ?_)
      cases hst : st.1
      simp [appendChild, childrenOf]
    · have hpp' : pp ∈ rest := by
        rcases List.mem_cons.1 hpp with rfl | h
        · exact absurd rfl hqp
        · exact h
      have hqk : qq.1 ≠ pp.1 := fun he =>
        hqp (huniq qq (List.mem_cons_self qq rest) he)
      by_cases hc : countSub tag qq.1 st.1 = 0
      · have hstep : updateStep tag mk st qq = (appendChild st.1 (mk qq), true) := by
          unfold updateStep; rw [if_pos hc]
        rw [hstep]
        refine ih (appendChild st.1 (mk qq), true) pp hpp' ?_ ?_
        · rw [countSub_appendChild, (hmk qq pp.1).2, (hmk qq pp.1).1, hk]
          simp [hqk]
        · exact fun rr hrr hre => huniq rr (List.mem_cons_of_mem qq hrr) hre
      · have hstep : updateStep tag mk st qq = st := by
          unfold updateStep; rw [if_neg hc]
        rw [hstep]
        exact ih st pp hpp' hk
          (fun rr hrr hre => huniq rr (List.mem_cons_of_mem qq hrr) hre)

end UpdateFold

theorem goodMk_part :
    GoodMk "part" (fun pp : String × String => partElem pp.1 pp.2) := by
  intro pp k
  constructor
  · simp [matchesId, partElem, tagOf, attrsOf, alookup]
  · rfl

theorem tagOf_padElemXml (n : String) (v : PadRecord) :
    tagOf (padElemXml n v) = "pad" := by
  unfold padElemXml
  split
  · split <;> rfl
  · split <;> rfl

theorem countSub_padElemXml (tag k : String) (n : String) (v : PadRecord) :
    countSub tag k (padElemXml n v) = 0 := by
  unfold padElemXml
  split
  · split <;> rfl
  · split <;> rfl

theorem matchesId_padElemXml (k : String) (n : String) (v : PadRecord) :
    matchesId "package" k (padElemXml n v) = false := by
  simp [matchesId, tagOf_padElemXml]

theorem padFold_countSub (k : String) (padsDict : List (String × PadRecord)) :
    ∀ fe : XmlElem,
      countSub "package" k
        (padsDict.foldl (fun fe pp => appendChild fe (padElemXml pp.1 pp.2)) fe) =
      countSub "package" k fe := by
  induction padsDict with
  | nil => intro fe; rfl
  | cons pp rest ih =>
    intro fe
    rw [List.foldl_cons, ih]
    rw [countSub_appendChild, matchesId_padElemXml, countSub_padElemXml]
    simp

theorem countSubList_nozzleStrings (k : String) (nozzles : List String) :
    countSubList "package" k
      (nozzles.map (fun n => XmlElem.mk "string" [] n [])) = 0 := by
  induction nozzles with
  | nil => rfl
  | cons n rest ih =>
    simp only [List.map_cons, countSubList, ih]
    have h1 : matchesId "package" k (XmlElem.mk "string" [] n []) = false := by
      simp [matchesId, tagOf]
    rw [h1]
    rfl

theorem goodMk_package (usable_nozzles : List String) :
    GoodMk "package"
      (fun pp : String × List (String × PadRecord) =>
        packageElem pp.1 pp.2 usable_nozzles) := by
  intro pp k
  constructor
  · simp [matchesId, packageElem, tagOf, attrsOf, alookup]
  · show countSub "package" k (packageElem pp.1 pp.2 usable_nozzles) = 0
    unfold packageElem
    dsimp only
    have htag : ∀ (l : List (String × PadRecord)) (fe : XmlElem),
        tagOf (List.foldl (fun fe pp => appendChild fe (padElemXml pp.1 pp.2)) fe l) =
          tagOf fe := by
      intro l
      induction l with
      | nil => intro fe; rfl
      | cons q qs ih =>
        intro fe
        rw [List.foldl_cons, ih]
        cases fe; rfl
    have ht : tagOf (List.foldl (fun fe pp => appendChild fe (padElemXml pp.1 pp.2))
        (XmlElem.mk "footprint"
          [("units", "Millimeters"), ("body-width", packageSizeW pp.1),
            ("body-height", packageSizeH pp.1)] "" []) pp.2) = "footprint" :=
      htag pp.2 _
    have hm1 : matchesId "package" k
        (List.foldl (fun fe pp => appendChild fe (padElemXml pp.1 pp.2))
          (XmlElem.mk "footprint"
            [("units", "Millimeters"), ("body-width", packageSizeW pp.1),
              ("body-height", packageSizeH pp.1)] "" []) pp.2) = false := by
      unfold matchesId
      rw [ht]
      simp
    have hm2 : matchesId "package" k
        (XmlElem.mk "compatible-nozzle-tip-ids" [("class", "java.util.ArrayList")] ""
          (usable_nozzles.map (fun n => XmlElem.mk "string" [] n []))) = false := by
      simp [matchesId, tagOf]
    rw [countSub]
    simp only [countSubList, hm1, hm2, if_false, Bool.false_eq_true]
    rw [padFold_countSub]
    rw [show countSub "package" k
        (XmlElem.mk "footprint"
          [("units", "Millimeters"), ("body-width", packageSizeW pp.1),
            ("body-height", packageSizeH pp.1)] "" []) = 0 from rfl]
    rw [countSub, countSubList_nozzleStrings]

theorem nodup_keys_unique {β : Type} {l : List (String × β)}
    (h : (l.map Prod.fst).Nodup) :
    ∀ pp ∈ l, ∀ qq ∈ l, qq.1 = pp.1 → qq = pp := by
  induction l with
  | nil => intro pp hpp; exact absurd hpp (List.not_mem_nil pp)
  | cons x rest ih =>
    rw [List.map_cons, List.nodup_cons] at h
    intro pp hpp qq hqq hqe
    rcases List.mem_cons.1 hpp with rfl | hpp' <;>
      rcases List.mem_cons.1 hqq with rfl | hqq'
    · rfl
    · exact absurd (List.mem_map.2 ⟨qq, hqq', hqe⟩) h.1
    · exact absurd (List.mem_map.2 ⟨pp, hpp', hqe.symm⟩) h.1
    · exact ih h.2 pp hpp' qq hqq' hqe

/-- C7: for every part id not already present in parts.xml,
`update_parts_xml` creates exactly one `<part>` element whose `package-id`
is the part's mapped package and whose height is
`part_height_mapping[package]` when the package has an entry, `"0.0"`
otherwise.  (`parts` is a Python dict, so its keys are distinct.) -/
theorem C7_parts_created (parts : List (String × String)) (root : XmlElem)
    (ro : Bool) (hnd : (parts.map Prod.fst).Nodup) :
    ∀ pp ∈ parts, countSub "part" pp.1 root = 0 →
      countSub "part" pp.1 (update_parts_xml parts root ro).root = 1 ∧
      partElem pp.1 pp.2 ∈ childrenOf (update_parts_xml parts root ro).root ∧
      attrsOf (partElem pp.1 pp.2) =
        [("id", pp.1), ("name", pp.1), ("height-units", "Millimeters"),
          ("height", (alookup pp.2 part_height_mapping).getD "0.0"),
          ("package-id", pp.2), ("speed", "1.0"), ("pick-retry-count", "0")] := by
  intro pp hpp hmiss
  have hroot : (update_parts_xml parts root ro).root =
      (parts.foldl (updateStep "part" (fun pp => partElem pp.1 pp.2)) (root, false)).1 := rfl
  rw [hroot]
  refine ⟨?_, ?_, rfl⟩
  · exact updateFold_count_one "part" _ goodMk_part parts (root, false) pp.1 hmiss
      (List.mem_map.2 ⟨pp, hpp, rfl⟩)
  · exact updateFold_mem_added "part" _ goodMk_part parts (root, false) pp hpp hmiss
      (nodup_keys_unique hnd pp hpp)

/-- C9: both update functions only append new elements for ids with no
existing element anywhere in the tree; the root's tag/attributes/text and
every pre-existing child are unchanged (the old children are a prefix of the
new ones); and the file is written exactly when read-only mode is off and at
least one element was added — in particular it is not rewritten when
nothing is missing or when read-only mode is on. -/
theorem C9_update_frame (parts : List (String × String))
    (packages : List (String × List (String × PadRecord)))
    (rootParts rootPkgs : XmlElem) (nozzles : List String) (ro : Bool) :
    (∃ added : List XmlElem,
      (update_parts_xml parts rootParts ro).root = appendChildren rootParts added ∧
      childrenOf (update_parts_xml parts rootParts ro).root =
        childrenOf rootParts ++ added ∧
      tagOf (update_parts_xml parts rootParts ro).root = tagOf rootParts ∧
      attrsOf (update_parts_xml parts rootParts ro).root = attrsOf rootParts ∧
      textOf (update_parts_xml parts rootParts ro).root = textOf rootParts ∧
      (∀ e ∈ added, ∃ pp ∈ parts,
        e = partElem pp.1 pp.2 ∧ countSub "part" pp.1 rootParts = 0) ∧
      (update_parts_xml parts rootParts ro).written = (!ro && !added.isEmpty) ∧
      ((∀ pp ∈ parts, countSub "part" pp.1 rootParts ≠ 0) →
        added = [] ∧ (update_parts_xml parts rootParts ro).root = rootParts ∧
          (update_parts_xml parts rootParts ro).written = false)) ∧
    (∃ added : List XmlElem,
      (update_packages_xml packages rootPkgs nozzles ro).root =
        appendChildren rootPkgs added ∧
      childrenOf (update_packages_xml packages rootPkgs nozzles ro).root =
        childrenOf rootPkgs ++ added ∧
      tagOf (update_packages_xml packages rootPkgs nozzles ro).root = tagOf rootPkgs ∧
      attrsOf (update_packages_xml packages rootPkgs nozzles ro).root = attrsOf rootPkgs ∧
      textOf (update_packages_xml packages rootPkgs nozzles ro).root = textOf rootPkgs ∧
      (∀ e ∈ added, ∃ pp ∈ packages,
        e = packageElem pp.1 pp.2 nozzles ∧ countSub "package" pp.1 rootPkgs = 0) ∧
      (update_packages_xml packages rootPkgs nozzles ro).written = (!ro && !added.isEmpty) ∧
      ((∀ pp ∈ packages, countSub "package" pp.1 rootPkgs ≠ 0) →
        added = [] ∧
          (update_packages_xml packages rootPkgs nozzles ro).root = rootPkgs ∧
          (update_packages_xml packages rootPkgs nozzles ro).written = false)) := by
  constructor
  · obtain ⟨added, h1, h2, h3⟩ :=
      updateFold_spec "part" (fun pp : String × String => partElem pp.1 pp.2)
        parts (rootParts, false)
    have hroot : (update_parts_xml parts rootParts ro).root =
        (parts.foldl (updateStep "part" (fun pp => partElem pp.1 pp.2)) (rootParts, false)).1 := rfl
    have hwritten : (update_parts_xml parts rootParts ro).written =
        (!ro && (parts.foldl (updateStep "part" (fun pp => partElem pp.1 pp.2)) (rootParts, false)).2) := rfl
    have hempty : (∀ pp ∈ parts, countSub "part" pp.1 rootParts ≠ 0) → added = [] := by
      intro hall
      cases hadd : added with
      | nil => rfl
      | cons e es =>
        obtain ⟨pp, hpp, _, hcnt⟩ := h3 e (hadd ▸ List.mem_cons_self e es)
        exact absurd hcnt (hall pp hpp)
    refine ⟨added, ?_, ?_, ?_, ?_, ?_, h3, ?_, ?_⟩
    · rw [hroot, h1]
    · rw [hroot, h1, childrenOf_appendChildren]
    · rw [hroot, h1, tagOf_appendChildren]
    · rw [hroot, h1, attrsOf_appendChildren]
    · rw [hroot, h1, textOf_appendChildren]
    · rw [hwritten, h2]; simp
    · intro hall
      have he := hempty hall
      subst he
      refine ⟨rfl, by rw [hroot, h1, appendChildren_nil], ?_⟩
      rw [hwritten, h2]
      simp
  · obtain ⟨added, h1, h2, h3⟩ :=
      updateFold_spec "package"
        (fun pp : String × List (String × PadRecord) => packageElem pp.1 pp.2 nozzles)
        packages (rootPkgs, false)
    have hroot : (update_packages_xml packages rootPkgs nozzles ro).root =
        (packages.foldl
          (updateStep "package" (fun pp => packageElem pp.1 pp.2 nozzles))
          (rootPkgs, false)).1 := rfl
    have hwritten : (update_packages_xml packages rootPkgs nozzles ro).written =
        (!ro && (packages.foldl
          (updateStep "package" (fun pp => packageElem pp.1 pp.2 nozzles))
          (rootPkgs, false)).2) := rfl
    have hempty : (∀ pp ∈ packages, countSub "package" pp.1 rootPkgs ≠ 0) → added = [] := by
      intro hall
      cases hadd : added with
      | nil => rfl
      | cons e es =>
        obtain ⟨pp, hpp, _, hcnt⟩ := h3 e (hadd ▸ List.mem_cons_self e es)
        exact absurd hcnt (hall pp hpp)
    refine ⟨added, ?_, ?_, ?_, ?_, ?_, h3, ?_, ?_⟩
    · rw [hroot, h1]
    · rw [hroot, h1, childrenOf_appendChildren]
    · rw [hroot, h1, tagOf_appendChildren]
    · rw [hroot, h1, attrsOf_appendChildren]
    · rw [hroot, h1, textOf_appendChildren]
    · rw [hwritten, h2]; simp
    · intro hall
      have he := hempty hall
      subst he
      refine ⟨rfl, by rw [hroot, h1, appendChildren_nil], ?_⟩
      rw [hwritten, h2]
      simp

/-- A small parts.xml tree with one pre-existing part. -/
def demoPartsRoot : XmlElem :=
  .mk "openpnp-parts" [] ""
    [.mk "part" [("id", "FIDUCIAL-HOME"), ("package-id", "FIDUCIAL-1X2")] "" []]

def demoPartsList : List (String × String) := [("R_0402_10K", "R_0402")]

theorem C7_parts_created_witness :
    ((demoPartsList.map Prod.fst).Nodup ∧
      ("R_0402_10K", "R_0402") ∈ demoPartsList ∧
      countSub "part" "R_0402_10K" demoPartsRoot = 0) ∧
    (countSub "part" "R_0402_10K"
        (update_parts_xml demoPartsList demoPartsRoot false).root = 1 ∧
      partElem "R_0402_10K" "R_0402" ∈
        childrenOf (update_parts_xml demoPartsList demoPartsRoot false).root ∧
      attrsOf (partElem "R_0402_10K" "R_0402") =
        [("id", "R_0402_10K"), ("name", "R_0402_10K"),
          ("height-units", "Millimeters"),
          ("height", (alookup "R_0402" part_height_mapping).getD "0.0"),
          ("package-id", "R_0402"), ("speed", "1.0"),
          ("pick-retry-count", "0")]) :=
  ⟨⟨by decide, by decide, rfl⟩,
    C7_parts_created demoPartsList demoPartsRoot false (by decide)
      ("R_0402_10K", "R_0402") (by decide) rfl⟩

/-! ### `openpnp/create-feeders.py` (claim C8)

Feeders are modelled by the fields the script sets; the machine is the list
of its feeders, in creation order.  `find_or_create_slotted_feeder` followed
by the setter calls becomes an in-place update of the first feeder whose
name starts with `"{name} ("`, or an append of a fresh feeder. -/

structure Feeder where
  name : String
  bank : String := ""
  locX : ℚ := 0
  locY : ℚ := 0
  locZ : ℚ := 0
  locRot : ℚ := 0
  actuatorName : String := ""
  actuatorValue : Int := 0
  postPickActuatorName : String := ""
  postPickActuatorValue : Int := 0
  deriving Repr

/-- The feeder built by one iteration of `create_auto_feeders`
(lines 134-141). -/
def autoFeeder (start_x start_y offset_x offset_y : ℚ)
    (feed_actuator postpick_actuator : String) (id : Nat) : Feeder :=
  { name := "Feeder-" ++ toString id,
    locX := start_x + offset_x * id,
    locY := start_y + offset_y * id,
    locZ := 0, locRot := 0,
    actuatorName := feed_actuator,
    actuatorValue := (id : Int),
    postPickActuatorName := postpick_actuator,
    postPickActuatorValue := (id : Int) }

/-- `create_auto_feeders` (lines 132-141): create `count` fresh
`ReferenceAutoFeeder`s and add each to the machine. -/
def create_auto_feeders (count : Nat) (start_x start_y offset_x offset_y : ℚ)
    (feed_actuator postpick_actuator : String) (machine : List Feeder) :
    List Feeder :=
  (List.range count).foldl
    (fun mach id =>
      mach ++ [autoFeeder start_x start_y offset_x offset_y
        feed_actuator postpick_actuator id])
    machine

/-- The setter calls applied to the found-or-created slot feeder
(lines 149-153). -/
def slotUpdate (id : Nat) (start_x start_y offset_x offset_y : ℚ)
    (feed_actuator postpick_actuator : String) (f : Feeder) : Feeder :=
  { f with
    locX := start_x + offset_x * id,
    locY := start_y + offset_y * id,
    locZ := 0, locRot := 0,
    actuatorName := feed_actuator,
    actuatorValue := (id : Int),
    postPickActuatorName := postpick_actuator,
    postPickActuatorValue := (id : Int) }

/-- Apply `g` to the first feeder satisfying `p` (the feeder
`find_slotted_feeder` returns); `none` when there is no match. -/
def updateFirstSlot (p : Feeder → Bool) (g : Feeder → Feeder) :
    List Feeder → Option (List Feeder)
  | [] => none
  | f :: rest =>
    if p f then some (g f :: rest)
    else (updateFirstSlot p g rest).map (f :: ·)

/-- One iteration of `create_slotted_feeders` (lines 147-153):
`find_or_create_slotted_feeder('SLOT-{id}', bank)` then the setters. -/
def create_slotted_step (start_x start_y offset_x offset_y : ℚ)
    (feed_actuator postpick_actuator bank : String)
    (mach : List Feeder) (id : Nat) : List Feeder :=
  let name := "SLOT-" ++ toString id
  match updateFirstSlot (fun f => (name ++ " (").isPrefixOf f.name)
      (slotUpdate id start_x start_y offset_x offset_y
        feed_actuator postpick_actuator) mach with
  | some mach' => mach'
  | none =>
    mach ++ [slotUpdate id start_x start_y offset_x offset_y
      feed_actuator postpick_actuator { name := name, bank := bank }]

/-- `create_slotted_feeders` (lines 143-153). -/
def create_slotted_feeders (count : Nat) (start_x start_y offset_x offset_y : ℚ)
    (feed_actuator postpick_actuator bank : String) (machine : List Feeder) :
    List Feeder :=
  (List.range count).foldl
    (create_slotted_step start_x start_y offset_x offset_y
      feed_actuator postpick_actuator bank)
    machine

theorem foldl_append_map {α β : Type} (f : α → β) (l : List α) :
    ∀ acc : List β, l.foldl (fun acc x => acc ++ [f x]) acc = acc ++ l.map f := by
  induction l with
  | nil => intro acc; simp
  | cons x xs ih => intro acc; simp [ih]

theorem updateFirstSlot_some {p : Feeder → Bool} {g : Feeder → Feeder} :
    ∀ {l l' : List Feeder}, updateFirstSlot p g l = some l' →
      ∃ f ∈ l, p f = true ∧ g f ∈ l' := by
  intro l
  induction l with
  | nil => intro l' h; exact Option.noConfusion h
  | cons f rest ih =>
    intro l' h
    unfold updateFirstSlot at h
    by_cases hp : p f = true
    · rw [if_pos hp] at h
      cases h
      exact ⟨f, List.mem_cons_self f rest, hp, List.mem_cons_self _ _⟩
    · rw [if_neg hp] at h
      cases hrec : updateFirstSlot p g rest with
      | none => rw [hrec] at h; exact absurd h (by simp)
      | some rest' =>
        rw [hrec] at h
        simp only [Option.map_some'] at h
        obtain ⟨f', hf', hpf', hgf'⟩ := ih hrec
        have hl : f :: rest' = l' := Option.some.inj h
        exact ⟨f', List.mem_cons_of_mem f hf', hpf', by
          rw [← hl]; exact List.mem_cons_of_mem f hgf'⟩

/-- C8: (auto feeders) the machine gains exactly `count` fresh feeders, and
the feeder created for each `id < count` is at pick coordinate
`(start_x + offset_x*id, start_y + offset_y*id, 0, 0)` with feed- and
post-pick-actuator values both `id`; (slotted feeders) each iteration's
found-or-created slot receives exactly that location and those actuator
values. -/
theorem C8_feeder_pick_locations (count : Nat)
    (start_x start_y offset_x offset_y : ℚ)
    (fa pa bank : String) (machine : List Feeder) :
    (create_auto_feeders count start_x start_y offset_x offset_y fa pa machine =
      machine ++ (List.range count).map
        (autoFeeder start_x start_y offset_x offset_y fa pa)) ∧
    (∀ id : Nat, id < count →
      autoFeeder start_x start_y offset_x offset_y fa pa id ∈
        create_auto_feeders count start_x start_y offset_x offset_y fa pa machine ∧
      (autoFeeder start_x start_y offset_x offset_y fa pa id).name =
        "Feeder-" ++ toString id ∧
      (autoFeeder start_x start_y offset_x offset_y fa pa id).locX =
        start_x + offset_x * id ∧
      (autoFeeder start_x start_y offset_x offset_y fa pa id).locY =
        start_y + offset_y * id ∧
      (autoFeeder start_x start_y offset_x offset_y fa pa id).locZ = 0 ∧
      (autoFeeder start_x start_y offset_x offset_y fa pa id).locRot = 0 ∧
      (autoFeeder start_x start_y offset_x offset_y fa pa id).actuatorValue = (id : Int) ∧
      (autoFeeder start_x start_y offset_x offset_y fa pa id).postPickActuatorValue = (id : Int) ∧
      (autoFeeder start_x start_y offset_x offset_y fa pa id).actuatorName = fa ∧
      (autoFeeder start_x start_y offset_x offset_y fa pa id).postPickActuatorName = pa) ∧
    (create_slotted_feeders count start_x start_y offset_x offset_y fa pa bank machine =
      (List.range count).foldl
        (create_slotted_step start_x start_y offset_x offset_y fa pa bank) machine) ∧
    (∀ (mach : List Feeder) (id : Nat),
      ∃ f ∈ create_slotted_step start_x start_y offset_x offset_y fa pa bank mach id,
        f.locX = start_x + offset_x * id ∧
        f.locY = start_y + offset_y * id ∧
        f.locZ = 0 ∧ f.locRot = 0 ∧
        f.actuatorValue = (id : Int) ∧
        f.postPickActuatorValue = (id : Int) ∧
        f.actuatorName = fa ∧ f.postPickActuatorName = pa) := by
  refine ⟨foldl_append_map _ _ machine, ?_, rfl, ?_⟩
  · intro id hid
    refine ⟨?_, rfl, rfl, rfl, rfl, rfl, rfl, rfl, rfl, rfl⟩
    rw [show create_auto_feeders count start_x start_y offset_x offset_y fa pa machine =
        machine ++ (List.range count).map
          (autoFeeder start_x start_y offset_x offset_y fa pa) from
      foldl_append_map _ _ machine]
    exact List.mem_append.2 (Or.inr (List.mem_map.2 ⟨id, List.mem_range.2 hid, rfl⟩))
  · intro mach id
    unfold create_slotted_step
    dsimp only
    cases hu : updateFirstSlot
        (fun f => (("SLOT-" ++ toString id) ++ " (").isPrefixOf f.name)
        (slotUpdate id start_x start_y offset_x offset_y fa pa) mach with
    | some mach' =>
      obtain ⟨f, _, _, hgf⟩ := updateFirstSlot_some hu
      exact ⟨slotUpdate id start_x start_y offset_x offset_y fa pa f, hgf,
        rfl, rfl, rfl, rfl, rfl, rfl, rfl, rfl⟩
    | none =>
      refine ⟨slotUpdate id start_x start_y offset_x offset_y fa pa
        { name := "SLOT-" ++ toString id, bank := bank }, ?_,
        rfl, rfl, rfl, rfl, rfl, rfl, rfl, rfl⟩
      exact List.mem_append.2 (Or.inr (List.mem_cons_self _ _))

theorem C8_feeder_pick_locations_witness :
    (1 < 2) ∧
    (autoFeeder 0 10 15 0 "FeederAdvance4MM" "FeederPostPick" 1 ∈
      create_auto_feeders 2 0 10 15 0 "FeederAdvance4MM" "FeederPostPick" [] ∧
      (autoFeeder 0 10 15 0 "FeederAdvance4MM" "FeederPostPick" 1).name =
        "Feeder-" ++ toString 1 ∧
      (autoFeeder 0 10 15 0 "FeederAdvance4MM" "FeederPostPick" 1).locX =
        0 + 15 * (1 : Nat) ∧
      (autoFeeder 0 10 15 0 "FeederAdvance4MM" "FeederPostPick" 1).locY =
        10 + 0 * (1 : Nat) ∧
      (autoFeeder 0 10 15 0 "FeederAdvance4MM" "FeederPostPick" 1).locZ = 0 ∧
      (autoFeeder 0 10 15 0 "FeederAdvance4MM" "FeederPostPick" 1).locRot = 0 ∧
      (autoFeeder 0 10 15 0 "FeederAdvance4MM" "FeederPostPick" 1).actuatorValue =
        ((1 : Nat) : Int) ∧
      (autoFeeder 0 10 15 0 "FeederAdvance4MM" "FeederPostPick" 1).postPickActuatorValue =
        ((1 : Nat) : Int) ∧
      (autoFeeder 0 10 15 0 "FeederAdvance4MM" "FeederPostPick" 1).actuatorName =
        "FeederAdvance4MM" ∧
      (autoFeeder 0 10 15 0 "FeederAdvance4MM" "FeederPostPick" 1).postPickActuatorName =
        "FeederPostPick") :=
  ⟨by norm_num,
    (C8_feeder_pick_locations 2 0 10 15 0 "FeederAdvance4MM" "FeederPostPick"
      "BANK" []).2.1 1 (by norm_num)⟩

/-! ### The label-sheet paginator (`label_maker/generate_labels.py` and the
legacy `generate_labels.py`; claims C3, C4, C5)

`create_page` becomes a fold over the page's label list carrying the
`(rowIndex, columnIndex)` cursor; the pasted images and the label-map lines
are returned instead of written.  The label_maker version can raise
`ZeroDivisionError` (`rowIndex % groupSize`), hence `Option`; the page-count
division of `generate` can raise when `rows*columns == 0`, hence `Option`
there as well. -/

/-- Configuration of `label_maker/generate_labels.py` (`config.data`). -/
structure LabelConfig where
  pageWidth : Int := 0
  pageHeight : Int := 0
  rows : Int
  columns : Int
  labelSize : Int := 0
  marginX : Int := 0
  marginY : Int := 0
  spacingX : Int := 0
  spacingY : Int := 0
  groupSize : Int := 1
  groupSpacing : Int := 0
  deriving Repr, DecidableEq

/-- Configuration of the legacy `generate_labels.py` (`config.data`). -/
structure RootLabelConfig where
  pageWidth : Int := 0
  pageHeight : Int := 0
  rows : Int
  columns : Int
  labelSize : Int := 0
  offsetX : Int := 0
  offsetY : Int := 0
  spacingX : Int := 0
  spacingY : Int := 0
  deriving Repr, DecidableEq

/-- `os.path.basename` on the accumulated current segment. -/
def basenameCore (cur : List Char) : List Char → List Char
  | [] => cur
  | c :: rest => if c = '/' then basenameCore [] rest else basenameCore (cur ++ [c]) rest

/-- `filename = os.path.basename(label); partID = filename[:len(filename) - 4]`. -/
def partIdOf (file : String) : String :=
  let f := basenameCore [] file.data
  String.mk (f.take (f.length - 4))

/-- One emitted page: its file name, the pasted images with their pixel
positions, and the `label_map.txt` cell lines `(X, Y, partID)`. -/
structure PageOut where
  fileName : String
  pasted : List (Int × Int × String)
  mapLines : List (Nat × Nat × String)
  deriving Repr, DecidableEq, Inhabited

/-- The body of the label loop of `create_page`
(`label_maker/generate_labels.py` lines 89-112): paste and record non-blank
labels, then advance the cursor and wrap after `columns` entries.
`rowIndex % groupSize` raises ZeroDivisionError when `groupSize` is 0. -/
def createPageStep (cfg : LabelConfig)
    (st : List (Int × Int × String) × List (Nat × Nat × String) × Nat × Nat)
    (label : String) :
    Option (List (Int × Int × String) × List (Nat × Nat × String) × Nat × Nat) :=
  let pasted := st.1
  let mapLines := st.2.1
  let rowIndex := st.2.2.1
  let columnIndex := st.2.2.2
  let next := fun (pasted' : List (Int × Int × String))
      (mapLines' : List (Nat × Nat × String)) =>
    if ((rowIndex + 1 : Nat) : Int) > cfg.columns - 1 then
      (pasted', mapLines', 0, columnIndex + 1)
    else
      (pasted', mapLines', rowIndex + 1, columnIndex)
  if label ≠ " " then
    if cfg.groupSize = 0 then none
    else
      let groupIndex := Int.fmod (rowIndex : Int) cfg.groupSize
      let groupNumber := Int.fdiv (rowIndex : Int) cfg.groupSize
      let imageSpacingX := cfg.marginX + (rowIndex : Int) * cfg.labelSize +
        groupNumber * cfg.spacingX + groupIndex * cfg.groupSpacing
      let imageSpacingY := cfg.marginY + (columnIndex : Int) * cfg.labelSize +
        (columnIndex : Int) * cfg.spacingY
      some (next (pasted ++ [(imageSpacingX, imageSpacingY, label)])
        (mapLines ++ [(rowIndex + 1, columnIndex + 1, partIdOf label)]))
  else
    some (next pasted mapLines)

/-- `create_page(pageNumber, labelList)` of `label_maker/generate_labels.py`
(lines 45-116); the page file is `print_labels_{pageNumber + 1}.png`. -/
def create_page (cfg : LabelConfig) (pageNumber : Nat) (labelList : List String) :
    Option PageOut := do
  let fin ← labelList.foldlM (createPageStep cfg) ([], [], 0, 0)
  return { fileName := "print_labels_" ++ toString (pageNumber + 1) ++ ".png",
           pasted := fin.1, mapLines := fin.2.1 }

/-- The body of the label loop of the legacy `create_page`
(`generate_labels.py` lines 87-106); no grouping, and it cannot raise. -/
def rootCreatePageStep (cfg : RootLabelConfig)
    (st : List (Int × Int × String) × List (Nat × Nat × String) × Nat × Nat)
    (label : String) :
    List (Int × Int × String) × List (Nat × Nat × String) × Nat × Nat :=
  let pasted := st.1
  let mapLines := st.2.1
  let rowIndex := st.2.2.1
  let columnIndex := st.2.2.2
  let next := fun (pasted' : List (Int × Int × String))
      (mapLines' : List (Nat × Nat × String)) =>
    if ((rowIndex + 1 : Nat) : Int) > cfg.columns - 1 then
      (pasted', mapLines', 0, columnIndex + 1)
    else
      (pasted', mapLines', rowIndex + 1, columnIndex)
  if label ≠ " " then
    let imageSpacingX := cfg.offsetX + (rowIndex : Int) * cfg.labelSize +
      (rowIndex : Int) * cfg.spacingX
    let imageSpacingY := cfg.offsetY + (columnIndex : Int) * cfg.labelSize +
      (columnIndex : Int) * cfg.spacingY
    next (pasted ++ [(imageSpacingX, imageSpacingY, label)])
      (mapLines ++ [(rowIndex + 1, columnIndex + 1, partIdOf label)])
  else
    next pasted mapLines

/-- `create_page(pageNumber, labelList)` of the legacy `generate_labels.py`
(lines 50-110); note the page file is `print_labels_{pageNumber}.png`,
numbered from 0. -/
def root_create_page (cfg : RootLabelConfig) (pageNumber : Nat)
    (labelList : List String) : PageOut :=
  let fin := labelList.foldl (rootCreatePageStep cfg) ([], [], 0, 0)
  { fileName := "print_labels_" ++ toString pageNumber ++ ".png",
    pasted := fin.1, mapLines := fin.2.1 }

/-- `math.ceil(n / S)` for integer `n ≥ 0` and `S ≠ 0`, via floor division:
`ceil(n/S) = -floor(-n/S)`. -/
def ceilDivInt (n : Nat) (S : Int) : Int := -(Int.fdiv (-(n : Int)) S)

/-- The page loop of `generate` (label_maker lines 156-158): page `p` takes
`labelsList[0:labelsPerSheet]`, then that slice is deleted. -/
def genLoop (cfg : LabelConfig) : Nat → Nat → List String → Option (List PageOut)
  | 0, _, _ => some []
  | n + 1, page, remaining => do
    let S := (cfg.rows * cfg.columns).toNat
    let pg ← create_page cfg page (remaining.take S)
    let rest ← genLoop cfg n (page + 1) (remaining.drop S)
    return pg :: rest

/-- `generate(startIndex, ...)` of `label_maker/generate_labels.py`
(lines 119-161): pad with `startIndex` blanks, compute
`ceil(len / (rows*columns))` pages (ZeroDivisionError when
`rows*columns == 0`), and emit the pages. -/
def generate (cfg : LabelConfig) (startIndex : Nat) (labelFiles : List String) :
    Option (List PageOut) :=
  let labelsList := List.replicate startIndex " " ++ labelFiles
  let labelsPerSheet := cfg.rows * cfg.columns
  if labelsPerSheet = 0 then none
  else genLoop cfg (ceilDivInt labelsList.length labelsPerSheet).toNat 0 labelsList

/-- The page loop of the legacy `generate` (lines 148-150). -/
def rootGenLoop (cfg : RootLabelConfig) : Nat → Nat → List String → List PageOut
  | 0, _, _ => []
  | n + 1, page, remaining =>
    let S := (cfg.rows * cfg.columns).toNat
    root_create_page cfg page (remaining.take S) ::
      rootGenLoop cfg n (page + 1) (remaining.drop S)

/-- `generate(startIndex, ...)` of the legacy `generate_labels.py`
(lines 113-153). -/
def root_generate (cfg : RootLabelConfig) (startIndex : Nat)
    (labelFiles : List String) : Option (List PageOut) :=
  let labelsList := List.replicate startIndex " " ++ labelFiles
  let labelsPerSheet := cfg.rows * cfg.columns
  if labelsPerSheet = 0 then none
  else some (rootGenLoop cfg (ceilDivInt labelsList.length labelsPerSheet).toNat 0 labelsList)

/-! ### Cursor arithmetic: the running (row, column) pair is (i mod C, i div C) -/

theorem cursor_succ_eq (C i : Nat) (hC : 0 < C) (h : i % C + 1 = C) :
    (i + 1) % C = 0 ∧ (i + 1) / C = i / C + 1 := by
  have hd := Nat.div_add_mod i C
  have h1 : i + 1 = C * (i / C + 1) := by
    rw [Nat.mul_add, Nat.mul_one]
    omega
  constructor
  · rw [h1]
    exact Nat.mul_mod_right C _
  · rw [h1]
    exact Nat.mul_div_cancel_left _ hC

theorem cursor_succ_ne (C i : Nat) (hC : 0 < C) (h : i % C + 1 ≠ C) :
    (i + 1) % C = i % C + 1 ∧ (i + 1) / C = i / C := by
  have hd := Nat.div_add_mod i C
  have hlt : i % C < C := Nat.mod_lt i hC
  have hlt' : i % C + 1 < C := by omega
  have h1 : i + 1 = (i % C + 1) + C * (i / C) := by omega
  constructor
  · rw [h1, Nat.add_mul_mod_self_left, Nat.mod_eq_of_lt hlt']
  · rw [h1, Nat.add_mul_div_left _ _ hC, Nat.div_eq_of_lt hlt', Nat.zero_add]

/-- Condition `rowIndex + 1 > columns - 1` of the wrap test, translated:
with `rowIndex = i % C` it holds exactly when the row is full. -/
theorem wrap_cond_iff (columns : Int) (hcols : 0 < columns) (i : Nat) :
    (((i % columns.toNat + 1 : Nat) : Int) > columns - 1) ↔
      i % columns.toNat + 1 = columns.toNat := by
  have hlt : i % columns.toNat < columns.toNat :=
    Nat.mod_lt i (by omega)
  omega

theorem createPage_fold_spec (cfg : LabelConfig) (hcols : 0 < cfg.columns)
    (labels : List String) :
    ∀ (i : Nat) (pasted0 : List (Int × Int × String))
      (lines0 : List (Nat × Nat × String))
      (fin : List (Int × Int × String) × List (Nat × Nat × String) × Nat × Nat),
      labels.foldlM (createPageStep cfg)
        (pasted0, lines0, i % cfg.columns.toNat, i / cfg.columns.toNat) = some fin →
      fin.2.1 = lines0 ++ (labels.enumFrom i).filterMap
          (fun jl => if jl.2 = " " then none
            else some (jl.1 % cfg.columns.toNat + 1,
              jl.1 / cfg.columns.toNat + 1, partIdOf jl.2)) ∧
      fin.1.map (fun t => t.2.2) =
        pasted0.map (fun t => t.2.2) ++ labels.filter (fun l => l ≠ " ") := by
  induction labels with
  | nil =>
    intro i pasted0 lines0 fin h
    simp only [List.foldlM_nil] at h
    cases h
    simp [List.enumFrom]
  | cons l ls ih =>
    intro i pasted0 lines0 fin h
    rw [List.foldlM_cons] at h
    by_cases hbl : l = " "
    · subst hbl
      have hstep : createPageStep cfg
          (pasted0, lines0, i % cfg.columns.toNat, i / cfg.columns.toNat) " " =
          some (if ((i % cfg.columns.toNat + 1 : Nat) : Int) > cfg.columns - 1 then
              (pasted0, lines0, 0, i / cfg.columns.toNat + 1)
            else (pasted0, lines0, i % cfg.columns.toNat + 1, i / cfg.columns.toNat)) := by
        unfold createPageStep
        simp
      rw [hstep] at h
      rw [Option.bind_eq_bind, Option.some_bind] at h
      by_cases hw : ((i % cfg.columns.toNat + 1 : Nat) : Int) > cfg.columns - 1
      · rw [if_pos hw] at h
        have hc := (wrap_cond_iff cfg.columns hcols i).1 hw
        obtain ⟨hz, hs⟩ := cursor_succ_eq cfg.columns.toNat i (by omega) hc
        rw [show (0 : Nat) = (i + 1) % cfg.columns.toNat from hz.symm,
            show i / cfg.columns.toNat + 1 = (i + 1) / cfg.columns.toNat from hs.symm] at h
        obtain ⟨h1, h2⟩ := ih (i + 1) pasted0 lines0 fin h
        refine ⟨?_, by simpa using h2⟩
        rw [h1]
        simp [List.enumFrom]
      · rw [if_neg hw] at h
        have hc := fun he => hw ((wrap_cond_iff cfg.columns hcols i).2 he)
        obtain ⟨hz, hs⟩ := cursor_succ_ne cfg.columns.toNat i (by omega) hc
        rw [show i % cfg.columns.toNat + 1 = (i + 1) % cfg.columns.toNat from hz.symm,
            show i / cfg.columns.toNat = (i + 1) / cfg.columns.toNat from hs.symm] at h
        obtain ⟨h1, h2⟩ := ih (i + 1) pasted0 lines0 fin h
        refine ⟨?_, by simpa using h2⟩
        rw [h1]
        simp [List.enumFrom]
    · by_cases hgs : cfg.groupSize = 0
      · exfalso
        have hstep : createPageStep cfg
            (pasted0, lines0, i % cfg.columns.toNat, i / cfg.columns.toNat) l = none := by
          unfold createPageStep
          rw [if_pos (by simpa using hbl), if_pos hgs]
        rw [hstep] at h
        simp at h
      · have hstep : createPageStep cfg
            (pasted0, lines0, i % cfg.columns.toNat, i / cfg.columns.toNat) l =
            some (if ((i % cfg.columns.toNat + 1 : Nat) : Int) > cfg.columns - 1 then
                (pasted0 ++ [(cfg.marginX + (i % cfg.columns.toNat : Nat) * cfg.labelSize +
                    Int.fdiv (i % cfg.columns.toNat : Nat) cfg.groupSize * cfg.spacingX +
                    Int.fmod (i % cfg.columns.toNat : Nat) cfg.groupSize * cfg.groupSpacing,
                  cfg.marginY + (i / cfg.columns.toNat : Nat) * cfg.labelSize +
                    (i / cfg.columns.toNat : Nat) * cfg.spacingY, l)],
                 lines0 ++ [(i % cfg.columns.toNat + 1, i / cfg.columns.toNat + 1, partIdOf l)],
                 0, i / cfg.columns.toNat + 1)
              else
                (pasted0 ++ [(cfg.marginX + (i % cfg.columns.toNat : Nat) * cfg.labelSize +
                    Int.fdiv (i % cfg.columns.toNat : Nat) cfg.groupSize * cfg.spacingX +
                    Int.fmod (i % cfg.columns.toNat : Nat) cfg.groupSize * cfg.groupSpacing,
                  cfg.marginY + (i / cfg.columns.toNat : Nat) * cfg.labelSize +
                    (i / cfg.columns.toNat : Nat) * cfg.spacingY, l)],
                 lines0 ++ [(i % cfg.columns.toNat + 1, i / cfg.columns.toNat + 1, partIdOf l)],
                 i % cfg.columns.toNat + 1, i / cfg.columns.toNat)) := by
          unfold createPageStep
          rw [if_pos (by simpa using hbl), if_neg hgs]
        rw [hstep] at h
        rw [Option.bind_eq_bind, Option.some_bind] at h
        by_cases hw : ((i % cfg.columns.toNat + 1 : Nat) : Int) > cfg.columns - 1
        · rw [if_pos hw] at h
          have hc := (wrap_cond_iff cfg.columns hcols i).1 hw
          obtain ⟨hz, hs⟩ := cursor_succ_eq cfg.columns.toNat i (by omega) hc
          rw [show (0 : Nat) = (i + 1) % cfg.columns.toNat from hz.symm,
              show i / cfg.columns.toNat + 1 = (i + 1) / cfg.columns.toNat from hs.symm] at h
          obtain ⟨h1, h2⟩ := ih (i + 1) _ _ fin h
          refine ⟨?_, ?_⟩
          · rw [h1]
            simp [List.enumFrom, hbl, hz, hs]
          · rw [h2]
            simp [hbl]
        · rw [if_neg hw] at h
          have hc := fun he => hw ((wrap_cond_iff cfg.columns hcols i).2 he)
          obtain ⟨hz, hs⟩ := cursor_succ_ne cfg.columns.toNat i (by omega) hc
          rw [show i % cfg.columns.toNat + 1 = (i + 1) % cfg.columns.toNat from hz.symm,
              show i / cfg.columns.toNat = (i + 1) / cfg.columns.toNat from hs.symm] at h
          obtain ⟨h1, h2⟩ := ih (i + 1) _ _ fin h
          refine ⟨?_, ?_⟩
          · rw [h1]
            simp [List.enumFrom, hbl, hz, hs]
          · rw [h2]
            simp [hbl]

theorem rootCreatePage_fold_spec (cfg : RootLabelConfig) (hcols : 0 < cfg.columns)
    (labels : List String) :
    ∀ (i : Nat) (pasted0 : List (Int × Int × String))
      (lines0 : List (Nat × Nat × String)),
      (labels.foldl (rootCreatePageStep cfg)
          (pasted0, lines0, i % cfg.columns.toNat, i / cfg.columns.toNat)).2.1 =
        lines0 ++ (labels.enumFrom i).filterMap
          (fun jl => if jl.2 = " " then none
            else some (jl.1 % cfg.columns.toNat + 1,
              jl.1 / cfg.columns.toNat + 1, partIdOf jl.2)) ∧
      ((labels.foldl (rootCreatePageStep cfg)
          (pasted0, lines0, i % cfg.columns.toNat, i / cfg.columns.toNat)).1).map
            (fun t => t.2.2) =
        pasted0.map (fun t => t.2.2) ++ labels.filter (fun l => l ≠ " ") := by
  induction labels with
  | nil =>
    intro i pasted0 lines0
    simp [List.enumFrom]
  | cons l ls ih =>
    intro i pasted0 lines0
    rw [List.foldl_cons]
    by_cases hbl : l = " "
    · subst hbl
      have hstep : rootCreatePageStep cfg
          (pasted0, lines0, i % cfg.columns.toNat, i / cfg.columns.toNat) " " =
          (if ((i % cfg.columns.toNat + 1 : Nat) : Int) > cfg.columns - 1 then
              (pasted0, lines0, 0, i / cfg.columns.toNat + 1)
            else (pasted0, lines0, i % cfg.columns.toNat + 1, i / cfg.columns.toNat)) := by
        unfold rootCreatePageStep
        simp
      rw [hstep]
      by_cases hw : ((i % cfg.columns.toNat + 1 : Nat) : Int) > cfg.columns - 1
      · rw [if_pos hw]
        have hc := (wrap_cond_iff cfg.columns hcols i).1 hw
        obtain ⟨hz, hs⟩ := cursor_succ_eq cfg.columns.toNat i (by omega) hc
        rw [show (0 : Nat) = (i + 1) % cfg.columns.toNat from hz.symm,
            show i / cfg.columns.toNat + 1 = (i + 1) / cfg.columns.toNat from hs.symm]
        obtain ⟨h1, h2⟩ := ih (i + 1) pasted0 lines0
        refine ⟨?_, by simpa using h2⟩
        rw [h1]
        simp [List.enumFrom]
      · rw [if_neg hw]
        have hc := fun he => hw ((wrap_cond_iff cfg.columns hcols i).2 he)
        obtain ⟨hz, hs⟩ := cursor_succ_ne cfg.columns.toNat i (by omega) hc
        rw [show i % cfg.columns.toNat + 1 = (i + 1) % cfg.columns.toNat from hz.symm,
            show i / cfg.columns.toNat = (i + 1) / cfg.columns.toNat from hs.symm]
        obtain ⟨h1, h2⟩ := ih (i + 1) pasted0 lines0
        refine ⟨?_, by simpa using h2⟩
        rw [h1]
        simp [List.enumFrom]
    · have hstep : rootCreatePageStep cfg
          (pasted0, lines0, i % cfg.columns.toNat, i / cfg.columns.toNat) l =
          (if ((i % cfg.columns.toNat + 1 : Nat) : Int) > cfg.columns - 1 then
              (pasted0 ++ [(cfg.offsetX + (i % cfg.columns.toNat : Nat) * cfg.labelSize +
                  (i % cfg.columns.toNat : Nat) * cfg.spacingX,
                cfg.offsetY + (i / cfg.columns.toNat : Nat) * cfg.labelSize +
                  (i / cfg.columns.toNat : Nat) * cfg.spacingY, l)],
               lines0 ++ [(i % cfg.columns.toNat + 1, i / cfg.columns.toNat + 1, partIdOf l)],
               0, i / cfg.columns.toNat + 1)
            else
              (pasted0 ++ [(cfg.offsetX + (i % cfg.columns.toNat : Nat) * cfg.labelSize +
                  (i % cfg.columns.toNat : Nat) * cfg.spacingX,
                cfg.offsetY + (i / cfg.columns.toNat : Nat) * cfg.labelSize +
                  (i / cfg.columns.toNat : Nat) * cfg.spacingY, l)],
               lines0 ++ [(i % cfg.columns.toNat + 1, i / cfg.columns.toNat + 1, partIdOf l)],
               i % cfg.columns.toNat + 1, i / cfg.columns.toNat)) := by
        unfold rootCreatePageStep
        rw [if_pos (by simpa using hbl)]
      rw [hstep]
      by_cases hw : ((i % cfg.columns.toNat + 1 : Nat) : Int) > cfg.columns - 1
      · rw [if_pos hw]
        have hc := (wrap_cond_iff cfg.columns hcols i).1 hw
        obtain ⟨hz, hs⟩ := cursor_succ_eq cfg.columns.toNat i (by omega) hc
        rw [show (0 : Nat) = (i + 1) % cfg.columns.toNat from hz.symm,
            show i / cfg.columns.toNat + 1 = (i + 1) / cfg.columns.toNat from hs.symm]
        obtain ⟨h1, h2⟩ := ih (i + 1) _ _
        refine ⟨?_, ?_⟩
        · rw [h1]
          simp [List.enumFrom, hbl, hz, hs]
        · rw [h2]
          simp [hbl]
      · rw [if_neg hw]
        have hc := fun he => hw ((wrap_cond_iff cfg.columns hcols i).2 he)
        obtain ⟨hz, hs⟩ := cursor_succ_ne cfg.columns.toNat i (by omega) hc
        rw [show i % cfg.columns.toNat + 1 = (i + 1) % cfg.columns.toNat from hz.symm,
            show i / cfg.columns.toNat = (i + 1) / cfg.columns.toNat from hs.symm]
        obtain ⟨h1, h2⟩ := ih (i + 1) _ _
        refine ⟨?_, ?_⟩
        · rw [h1]
          simp [List.enumFrom, hbl, hz, hs]
        · rw [h2]
          simp [hbl]

/-- C4: within one page, the entry at position `i` of the page's label list
occupies grid cell `X = (i mod C) + 1`, `Y = (i div C) + 1` (the cursor
advances one cell per entry and wraps after exactly `C` entries); blank
entries advance the cursor but paste nothing and write no label-map line,
while every non-blank entry is pasted and recorded at its cell — in both the
label_maker and the legacy versions of `create_page`. -/
theorem C4_page_grid (cfg : LabelConfig) (pageNumber : Nat) (labels : List String)
    (out : PageOut) (hc : create_page cfg pageNumber labels = some out)
    (hcols : 0 < cfg.columns) :
    (out.mapLines = labels.enum.filterMap
      (fun jl => if jl.2 = " " then none
        else some (jl.1 % cfg.columns.toNat + 1,
          jl.1 / cfg.columns.toNat + 1, partIdOf jl.2))) ∧
    (out.pasted.map (fun t => t.2.2) = labels.filter (fun l => l ≠ " ")) ∧
    (∀ (rcfg : RootLabelConfig) (pn : Nat) (rlabels : List String),
      0 < rcfg.columns →
        (root_create_page rcfg pn rlabels).mapLines = rlabels.enum.filterMap
          (fun jl => if jl.2 = " " then none
            else some (jl.1 % rcfg.columns.toNat + 1,
              jl.1 / rcfg.columns.toNat + 1, partIdOf jl.2)) ∧
        (root_create_page rcfg pn rlabels).pasted.map (fun t => t.2.2) =
          rlabels.filter (fun l => l ≠ " ")) := by
  refine ⟨?_, ?_, ?_⟩
  · unfold create_page at hc
    cases hf : labels.foldlM (createPageStep cfg) ([], [], 0, 0) with
    | none =>
      rw [hf, Option.bind_eq_bind, Option.none_bind] at hc
      exact Option.noConfusion hc
    | some fin =>
      rw [hf, Option.bind_eq_bind, Option.some_bind] at hc
      have hout := Option.some.inj hc
      obtain ⟨h1, _⟩ := createPage_fold_spec cfg hcols labels 0 [] [] fin
        (by rw [Nat.zero_mod, Nat.zero_div]; exact hf)
      rw [← hout]
      simpa [List.enum] using h1
  · unfold create_page at hc
    cases hf : labels.foldlM (createPageStep cfg) ([], [], 0, 0) with
    | none =>
      rw [hf, Option.bind_eq_bind, Option.none_bind] at hc
      exact Option.noConfusion hc
    | some fin =>
      rw [hf, Option.bind_eq_bind, Option.some_bind] at hc
      have hout := Option.some.inj hc
      obtain ⟨_, h2⟩ := createPage_fold_spec cfg hcols labels 0 [] [] fin
        (by rw [Nat.zero_mod, Nat.zero_div]; exact hf)
      rw [← hout]
      simpa using h2
  · intro rcfg pn rlabels hrc
    obtain ⟨h1, h2⟩ := rootCreatePage_fold_spec rcfg hrc rlabels 0 [] []
    constructor
    · show (rlabels.foldl (rootCreatePageStep rcfg) ([], [], 0, 0)).2.1 = _
      rw [show (([], [], 0, 0) :
          List (Int × Int × String) × List (Nat × Nat × String) × Nat × Nat) =
        ([], [], 0 % rcfg.columns.toNat, 0 / rcfg.columns.toNat) by
          rw [Nat.zero_mod, Nat.zero_div]]
      simpa [List.enum] using h1
    · show ((rlabels.foldl (rootCreatePageStep rcfg) ([], [], 0, 0)).1).map _ = _
      rw [show (([], [], 0, 0) :
          List (Int × Int × String) × List (Nat × Nat × String) × Nat × Nat) =
        ([], [], 0 % rcfg.columns.toNat, 0 / rcfg.columns.toNat) by
          rw [Nat.zero_mod, Nat.zero_div]]
      simpa using h2

def cfgW : LabelConfig :=
  { rows := 2, columns := 2, labelSize := 10, marginX := 1, marginY := 2,
    spacingX := 3, spacingY := 4, groupSize := 1, groupSpacing := 5 }

def labelsW : List String := [" ", "labels/A.png", "labels/B.png"]

def demoPage : PageOut := (create_page cfgW 0 labelsW).getD default

theorem C4_page_grid_witness :
    (create_page cfgW 0 labelsW = some demoPage ∧ 0 < cfgW.columns) ∧
    ((demoPage.mapLines = labelsW.enum.filterMap
      (fun jl => if jl.2 = " " then none
        else some (jl.1 % cfgW.columns.toNat + 1,
          jl.1 / cfgW.columns.toNat + 1, partIdOf jl.2))) ∧
    (demoPage.pasted.map (fun t => t.2.2) = labelsW.filter (fun l => l ≠ " ")) ∧
    (∀ (rcfg : RootLabelConfig) (pn : Nat) (rlabels : List String),
      0 < rcfg.columns →
        (root_create_page rcfg pn rlabels).mapLines = rlabels.enum.filterMap
          (fun jl => if jl.2 = " " then none
            else some (jl.1 % rcfg.columns.toNat + 1,
              jl.1 / rcfg.columns.toNat + 1, partIdOf jl.2)) ∧
        (root_create_page rcfg pn rlabels).pasted.map (fun t => t.2.2) =
          rlabels.filter (fun l => l ≠ " "))) :=
  ⟨⟨rfl, by decide⟩, C4_page_grid cfgW 0 labelsW demoPage rfl (by decide)⟩

theorem create_page_fileName (cfg : LabelConfig) (pn : Nat) (l : List String)
    (out : PageOut) (h : create_page cfg pn l = some out) :
    out.fileName = "print_labels_" ++ toString (pn + 1) ++ ".png" := by
  unfold create_page at h
  cases hf : l.foldlM (createPageStep cfg) ([], [], 0, 0) with
  | none =>
    rw [hf, Option.bind_eq_bind, Option.none_bind] at h
    exact Option.noConfusion h
  | some fin =>
    rw [hf, Option.bind_eq_bind, Option.some_bind] at h
    rw [← Option.some.inj h]

theorem genLoop_spec (cfg : LabelConfig) :
    ∀ (n page : Nat) (rem : List String) (pages : List PageOut),
      genLoop cfg n page rem = some pages →
      pages.length = n ∧
      ∀ p, p < n →
        pages.get? p = create_page cfg (page + p)
          ((rem.drop (p * (cfg.rows * cfg.columns).toNat)).take
            (cfg.rows * cfg.columns).toNat) := by
  intro n
  induction n with
  | zero =>
    intro page rem pages h
    unfold genLoop at h
    have hp := Option.some.inj h
    subst hp
    exact ⟨rfl, fun p hp => absurd hp (Nat.not_lt_zero p)⟩
  | succ n ih =>
    intro page rem pages h
    unfold genLoop at h
    dsimp only at h
    cases hc : create_page cfg page
        (rem.take (cfg.rows * cfg.columns).toNat) with
    | none =>
      rw [hc, Option.bind_eq_bind, Option.none_bind] at h
      exact Option.noConfusion h
    | some pg =>
      rw [hc, Option.bind_eq_bind, Option.some_bind] at h
      cases hr : genLoop cfg n (page + 1)
          (rem.drop (cfg.rows * cfg.columns).toNat) with
      | none =>
        rw [hr, Option.bind_eq_bind, Option.none_bind] at h
        exact Option.noConfusion h
      | some rest =>
        rw [hr, Option.bind_eq_bind, Option.some_bind] at h
        have hp := Option.some.inj h
        subst hp
        obtain ⟨hlen, hget⟩ := ih (page + 1) _ rest hr
        refine ⟨by simp [hlen], ?_⟩
        intro p hplt
        cases p with
        | zero =>
          simp only [List.get?_cons_zero, Nat.zero_mul, List.drop_zero, Nat.add_zero]
          exact hc.symm
        | succ q =>
          simp only [List.get?_cons_succ]
          rw [hget q (by omega)]
          rw [List.drop_drop]
          have harith : (cfg.rows * cfg.columns).toNat +
              q * (cfg.rows * cfg.columns).toNat =
              (q + 1) * (cfg.rows * cfg.columns).toNat := by ring
          rw [harith]
          have harith2 : page + 1 + q = page + (q + 1) := by omega
          rw [harith2]

theorem rootGenLoop_spec (cfg : RootLabelConfig) :
    ∀ (n page : Nat) (rem : List String),
      (rootGenLoop cfg n page rem).length = n ∧
      ∀ p, p < n →
        (rootGenLoop cfg n page rem).get? p = some (root_create_page cfg (page + p)
          ((rem.drop (p * (cfg.rows * cfg.columns).toNat)).take
            (cfg.rows * cfg.columns).toNat)) := by
  intro n
  induction n with
  | zero =>
    intro page rem
    exact ⟨rfl, fun p hp => absurd hp (Nat.not_lt_zero p)⟩
  | succ n ih =>
    intro page rem
    obtain ⟨hlen, hget⟩ := ih (page + 1) (rem.drop (cfg.rows * cfg.columns).toNat)
    refine ⟨by simp [rootGenLoop, hlen], ?_⟩
    intro p hplt
    cases p with
    | zero =>
      simp only [rootGenLoop, List.get?_cons_zero, Nat.zero_mul, List.drop_zero,
        Nat.add_zero]
    | succ q =>
      show (rootGenLoop cfg n (page + 1) _).get? q = _
      rw [hget q (by omega)]
      rw [List.drop_drop]
      have harith : (cfg.rows * cfg.columns).toNat +
          q * (cfg.rows * cfg.columns).toNat =
          (q + 1) * (cfg.rows * cfg.columns).toNat := by ring
      rw [harith]
      have harith2 : page + 1 + q = page + (q + 1) := by omega
      rw [harith2]

theorem ceilDivInt_eq_ceil (n : Nat) (S : Int) (hS : 0 < S) :
    ceilDivInt n S = Int.ceil ((n : ℚ) / (S : ℚ)) := by
  unfold ceilDivInt
  rw [Int.fdiv_eq_ediv _ (le_of_lt hS)]
  have hS' : ((S.toNat : ℕ) : ℤ) = S := Int.toNat_of_nonneg (le_of_lt hS)
  have h2 : -((n : ℚ) / (S : ℚ)) = (((-(n : ℤ)) : ℤ) : ℚ) / (((S.toNat : ℕ)) : ℚ) := by
    have h3 : ((S.toNat : ℕ) : ℚ) = (S : ℚ) := by
      have h4 := congrArg (fun z : ℤ => (z : ℚ)) hS'
      push_cast at h4
      exact h4
    rw [h3]
    push_cast
    ring
  have h1 : Int.ceil ((n : ℚ) / (S : ℚ)) = -Int.floor (-((n : ℚ) / (S : ℚ))) := by
    rw [Int.floor_neg]
    ring
  rw [h1, h2, Rat.floor_intCast_div_natCast, hS']

theorem ceilDivInt_bound (n : Nat) (S : Int) (hS : 0 < S) (p : Nat)
    (hp : p < (ceilDivInt n S).toNat) : p * S.toNat < n := by
  unfold ceilDivInt at hp
  rw [Int.fdiv_eq_ediv _ (le_of_lt hS)] at hp
  have hdm := Int.ediv_add_emod (-(n : Int)) S
  have hr0 : 0 ≤ (-(n : Int)) % S := Int.emod_nonneg _ (by omega)
  have hr1 : (-(n : Int)) % S < S := Int.emod_lt_of_pos _ hS
  have hple : (p : Int) ≤ -((-(n : Int)) / S) - 1 := by omega
  have hmul : (p : Int) * S ≤ (-((-(n : Int)) / S) - 1) * S :=
    mul_le_mul_of_nonneg_right hple (le_of_lt hS)
  have hexp : (-((-(n : Int)) / S) - 1) * S = -(S * ((-(n : Int)) / S)) - S := by
    ring
  have hcast : ((p * S.toNat : Nat) : Int) = (p : Int) * S := by
    push_cast
    rw [Int.toNat_of_nonneg (le_of_lt hS)]
  omega

/-- C3 (amended): a successful `generate` run with `S = rows*columns` and the
padded list `[' '] * startIndex ++ files` emits exactly
`ceil((startIndex+N)/S)` pages; page `p` (0-based) receives exactly the
entries `p*S .. min((p+1)*S, startIndex+N) - 1` of the padded list in input
order (each non-final page holds exactly `S` entries, each page at least
one); the label_maker version numbers the page files consecutively from 1
(`print_labels_{p+1}.png`), while the legacy `generate_labels.py` numbers
them consecutively from 0 (`print_labels_{p}.png`). -/
theorem C3_pagination (cfg : LabelConfig) (startIndex : Nat) (files : List String)
    (pages : List PageOut) (hg : generate cfg startIndex files = some pages) :
    pages.length =
      (ceilDivInt (startIndex + files.length) (cfg.rows * cfg.columns)).toNat ∧
    (0 < cfg.rows * cfg.columns →
      (pages.length : Int) =
        Int.ceil (((startIndex + files.length : Nat) : ℚ) /
          ((cfg.rows * cfg.columns : Int) : ℚ))) ∧
    (∀ p, p < pages.length →
      pages.get? p = create_page cfg p
        (((List.replicate startIndex " " ++ files).drop
          (p * (cfg.rows * cfg.columns).toNat)).take
          (cfg.rows * cfg.columns).toNat)) ∧
    (∀ p out, pages.get? p = some out →
      out.fileName = "print_labels_" ++ toString (p + 1) ++ ".png") ∧
    (0 < cfg.rows * cfg.columns → ∀ p, p + 1 < pages.length →
      (((List.replicate startIndex " " ++ files).drop
        (p * (cfg.rows * cfg.columns).toNat)).take
        (cfg.rows * cfg.columns).toNat).length = (cfg.rows * cfg.columns).toNat) ∧
    (0 < cfg.rows * cfg.columns → ∀ p, p < pages.length →
      0 < (((List.replicate startIndex " " ++ files).drop
        (p * (cfg.rows * cfg.columns).toNat)).take
        (cfg.rows * cfg.columns).toNat).length) ∧
    (∀ (rcfg : RootLabelConfig) (rsi : Nat) (rfiles : List String)
      (rpages : List PageOut),
      root_generate rcfg rsi rfiles = some rpages →
      rpages.length =
        (ceilDivInt (rsi + rfiles.length) (rcfg.rows * rcfg.columns)).toNat ∧
      (0 < rcfg.rows * rcfg.columns →
        (rpages.length : Int) =
          Int.ceil (((rsi + rfiles.length : Nat) : ℚ) /
            ((rcfg.rows * rcfg.columns : Int) : ℚ))) ∧
      (∀ p, p < rpages.length →
        rpages.get? p = some (root_create_page rcfg p
          (((List.replicate rsi " " ++ rfiles).drop
            (p * (rcfg.rows * rcfg.columns).toNat)).take
            (rcfg.rows * rcfg.columns).toNat))) ∧
      (∀ p, p < rpages.length → ∃ out, rpages.get? p = some out ∧
        out.fileName = "print_labels_" ++ toString p ++ ".png") ∧
      (0 < rcfg.rows * rcfg.columns → ∀ p, p + 1 < rpages.length →
        (((List.replicate rsi " " ++ rfiles).drop
          (p * (rcfg.rows * rcfg.columns).toNat)).take
          (rcfg.rows * rcfg.columns).toNat).length =
          (rcfg.rows * rcfg.columns).toNat) ∧
      (0 < rcfg.rows * rcfg.columns → ∀ p, p < rpages.length →
        0 < (((List.replicate rsi " " ++ rfiles).drop
          (p * (rcfg.rows * rcfg.columns).toNat)).take
          (rcfg.rows * rcfg.columns).toNat).length)) := by
  unfold generate at hg
  by_cases hS0 : cfg.rows * cfg.columns = 0
  · rw [if_pos hS0] at hg
    exact Option.noConfusion hg
  · rw [if_neg hS0] at hg
    have hpadlen : (List.replicate startIndex " " ++ files).length =
        startIndex + files.length := by
      simp
    rw [hpadlen] at hg
    obtain ⟨hlen, hget⟩ := genLoop_spec cfg _ 0 _ pages hg
    have hget' : ∀ p, p < pages.length →
        pages.get? p = create_page cfg p
          (((List.replicate startIndex " " ++ files).drop
            (p * (cfg.rows * cfg.columns).toNat)).take
            (cfg.rows * cfg.columns).toNat) := by
      intro p hp
      have := hget p (by omega)
      rwa [Nat.zero_add] at this
    refine ⟨hlen, ?_, hget', ?_, ?_, ?_, ?_⟩
    · intro hSpos
      rw [hlen, ceilDivInt_eq_ceil _ _ hSpos]
      rw [Int.toNat_of_nonneg]
      exact Int.ceil_nonneg (by positivity)
    · intro p out hpo
      have hp : p < pages.length := by
        by_contra hnp
        rw [List.get?_eq_none.2 (by omega)] at hpo
        exact Option.noConfusion hpo
      exact create_page_fileName cfg p _ out (by rw [← hget' p hp]; exact hpo)
    · intro hSpos p hp
      have hb := ceilDivInt_bound (startIndex + files.length)
        (cfg.rows * cfg.columns) hSpos (p + 1) (by omega)
      rw [List.length_take, List.length_drop, hpadlen]
      have hexp : (p + 1) * (cfg.rows * cfg.columns).toNat =
          p * (cfg.rows * cfg.columns).toNat + (cfg.rows * cfg.columns).toNat := by
        ring
      omega
    · intro hSpos p hp
      have hb := ceilDivInt_bound (startIndex + files.length)
        (cfg.rows * cfg.columns) hSpos p (by omega)
      rw [List.length_take, List.length_drop, hpadlen]
      have hs0 : 0 < (cfg.rows * cfg.columns).toNat := by omega
      omega
    · intro rcfg rsi rfiles rpages hrg
      unfold root_generate at hrg
      by_cases hrS0 : rcfg.rows * rcfg.columns = 0
      · rw [if_pos hrS0] at hrg
        exact Option.noConfusion hrg
      · rw [if_neg hrS0] at hrg
        have hrpadlen : (List.replicate rsi " " ++ rfiles).length =
            rsi + rfiles.length := by
          simp
        rw [hrpadlen] at hrg
        have hrp := Option.some.inj hrg
        obtain ⟨hrlen, hrget⟩ := rootGenLoop_spec rcfg
          (ceilDivInt (rsi + rfiles.length) (rcfg.rows * rcfg.columns)).toNat 0
          (List.replicate rsi " " ++ rfiles)
        subst hrp
        have hrget' : ∀ p, p < (rootGenLoop rcfg
            (ceilDivInt (rsi + rfiles.length) (rcfg.rows * rcfg.columns)).toNat 0
            (List.replicate rsi " " ++ rfiles)).length →
            (rootGenLoop rcfg
              (ceilDivInt (rsi + rfiles.length) (rcfg.rows * rcfg.columns)).toNat 0
              (List.replicate rsi " " ++ rfiles)).get? p =
              some (root_create_page rcfg p
                (((List.replicate rsi " " ++ rfiles).drop
                  (p * (rcfg.rows * rcfg.columns).toNat)).take
                  (rcfg.rows * rcfg.columns).toNat)) := by
          intro p hp
          have := hrget p (by omega)
          rwa [Nat.zero_add] at this
        refine ⟨hrlen, ?_, hrget', ?_, ?_, ?_⟩
        · intro hSpos
          rw [hrlen, ceilDivInt_eq_ceil _ _ hSpos]
          rw [Int.toNat_of_nonneg]
          exact Int.ceil_nonneg (by positivity)
        · intro p hp
          exact ⟨_, hrget' p hp, rfl⟩
        · intro hSpos p hp
          have hb := ceilDivInt_bound (rsi + rfiles.length)
            (rcfg.rows * rcfg.columns) hSpos (p + 1) (by omega)
          rw [List.length_take, List.length_drop, hrpadlen]
          have hexp : (p + 1) * (rcfg.rows * rcfg.columns).toNat =
              p * (rcfg.rows * rcfg.columns).toNat +
                (rcfg.rows * rcfg.columns).toNat := by
            ring
          omega
        · intro hSpos p hp
          have hb := ceilDivInt_bound (rsi + rfiles.length)
            (rcfg.rows * rcfg.columns) hSpos p (by omega)
          rw [List.length_take, List.length_drop, hrpadlen]
          have hs0 : 0 < (rcfg.rows * rcfg.columns).toNat := by omega
          omega

def rootCfgW : RootLabelConfig := { rows := 1, columns := 1, labelSize := 5 }

/-- C3 counterexample: the legacy `generate_labels.py` names its first (and
only) page file `print_labels_0.png`, not `print_labels_1.png` as the
claim's "numbered consecutively from 1" requires. -/
theorem C3_counterexample :
    (∃ rpages, root_generate rootCfgW 0 ["labels/a.png"] = some rpages ∧
      rpages.map PageOut.fileName = ["print_labels_0.png"]) ∧
    "print_labels_0.png" ≠ "print_labels_1.png" :=
  ⟨⟨_, rfl, rfl⟩, by decide⟩

def filesW : List String :=
  ["labels/A.png", "labels/B.png", "labels/C.png", "labels/D.png"]

def pagesW : List PageOut := (generate cfgW 1 filesW).getD []

theorem C3_pagination_witness :
    (generate cfgW 1 filesW = some pagesW) ∧
    pagesW.length =
      (ceilDivInt (1 + filesW.length) (cfgW.rows * cfgW.columns)).toNat :=
  ⟨rfl, (C3_pagination cfgW 1 filesW pagesW rfl).1⟩

/-! ### Termination of the paginator (claim C5) -/

theorem createPageStep_isSome (cfg : LabelConfig) (hgs : cfg.groupSize ≠ 0)
    (st : List (Int × Int × String) × List (Nat × Nat × String) × Nat × Nat)
    (label : String) : (createPageStep cfg st label).isSome = true := by
  unfold createPageStep
  dsimp only
  by_cases hbl : label ≠ " "
  · rw [if_pos hbl, if_neg hgs]
    rfl
  · rw [if_neg hbl]
    rfl

theorem foldlM_createPage_isSome (cfg : LabelConfig) (hgs : cfg.groupSize ≠ 0) :
    ∀ (l : List String)
      (st : List (Int × Int × String) × List (Nat × Nat × String) × Nat × Nat),
      (l.foldlM (createPageStep cfg) st).isSome = true := by
  intro l
  induction l with
  | nil => intro st; rfl
  | cons x xs ih =>
    intro st
    rw [List.foldlM_cons]
    have h := createPageStep_isSome cfg hgs st x
    cases hs : createPageStep cfg st x with
    | none => rw [hs] at h; exact absurd h (by simp)
    | some st' =>
      rw [Option.bind_eq_bind, Option.some_bind]
      exact ih st'

theorem create_page_isSome (cfg : LabelConfig) (hgs : cfg.groupSize ≠ 0)
    (pn : Nat) (l : List String) : (create_page cfg pn l).isSome = true := by
  unfold create_page
  have h := foldlM_createPage_isSome cfg hgs l ([], [], 0, 0)
  cases hs : l.foldlM (createPageStep cfg) ([], [], 0, 0) with
  | none => rw [hs] at h; exact absurd h (by simp)
  | some fin =>
    rw [Option.bind_eq_bind, Option.some_bind]
    rfl

theorem genLoop_isSome (cfg : LabelConfig) (hgs : cfg.groupSize ≠ 0) :
    ∀ (n page : Nat) (rem : List String),
      (genLoop cfg n page rem).isSome = true := by
  intro n
  induction n with
  | zero => intro page rem; rfl
  | succ n ih =>
    intro page rem
    unfold genLoop
    dsimp only
    have h := create_page_isSome cfg hgs page
      (rem.take (cfg.rows * cfg.columns).toNat)
    cases hc : create_page cfg page (rem.take (cfg.rows * cfg.columns).toNat) with
    | none => rw [hc] at h; exact absurd h (by simp)
    | some pg =>
      rw [Option.bind_eq_bind, Option.some_bind]
      have h2 := ih (page + 1) (rem.drop (cfg.rows * cfg.columns).toNat)
      cases hr : genLoop cfg n (page + 1)
          (rem.drop (cfg.rows * cfg.columns).toNat) with
      | none => rw [hr] at h2; exact absurd h2 (by simp)
      | some rest =>
        rw [Option.bind_eq_bind, Option.some_bind]
        rfl

/-- C5 (amended): the paginator's only terminating condition is exhaustion
of the input list — `generate` runs to completion for every label list and
every configuration whose `rows*columns` is non-zero (and, in the
label_maker version, whose `groupSize` is non-zero); with `rows*columns = 0`
the page-count division `ceil(len/labelsPerSheet)` raises
`ZeroDivisionError` in both versions. -/
theorem C5_generate_total (cfg : LabelConfig) (rcfg : RootLabelConfig)
    (si rsi : Nat) (files rfiles : List String)
    (hS : cfg.rows * cfg.columns ≠ 0) (hgs : cfg.groupSize ≠ 0)
    (hrS : rcfg.rows * rcfg.columns ≠ 0) :
    (generate cfg si files).isSome = true ∧
    (root_generate rcfg rsi rfiles).isSome = true := by
  constructor
  · unfold generate
    rw [if_neg hS]
    exact genLoop_isSome cfg hgs _ 0 _
  · unfold root_generate
    rw [if_neg hrS]
    rfl

def zeroCfg : LabelConfig := { rows := 0, columns := 0 }

def zeroGroupCfg : LabelConfig := { rows := 1, columns := 1, groupSize := 0 }

def zeroRootCfg : RootLabelConfig := { rows := 0, columns := 0 }

/-- C5 counterexample: with `rows = columns = 0` the page-count division by
`labelsPerSheet` raises (modelled as `none`) in both versions, and in the
label_maker version `groupSize = 0` makes `rowIndex % groupSize` raise as
soon as a non-blank label is placed — the iteration does not run to
completion for every configuration value. -/
theorem C5_counterexample :
    generate zeroCfg 0 ["labels/a.png"] = none ∧
    generate zeroGroupCfg 0 ["labels/a.png"] = none ∧
    root_generate zeroRootCfg 0 ["labels/a.png"] = none :=
  ⟨rfl, rfl, rfl⟩

theorem C5_generate_total_witness :
    (cfgW.rows * cfgW.columns ≠ 0 ∧ cfgW.groupSize ≠ 0 ∧
      rootCfgW.rows * rootCfgW.columns ≠ 0) ∧
    ((generate cfgW 0 ["labels/a.png"]).isSome = true ∧
      (root_generate rootCfgW 0 ["labels/a.png"]).isSome = true) :=
  ⟨⟨by decide, by decide, by decide⟩,
    C5_generate_total cfgW rootCfgW 0 0 ["labels/a.png"] ["labels/a.png"]
      (by decide) (by decide) (by decide)⟩

/-! ### `parse_board_xml` (label_maker lines 163-177; claim C10) -/

mutual

/-- `root.iter('placement')`: document-order (preorder) traversal collecting
elements with the given tag, the root included. -/
def iterTag (tag : String) : XmlElem → List XmlElem
  | .mk t a tx cs =>
    (if t = tag then [XmlElem.mk t a tx cs] else []) ++ iterTagList tag cs

def iterTagList (tag : String) : List XmlElem → List XmlElem
  | [] => []
  | c :: cs => iterTag tag c ++ iterTagList tag cs

end

/-- `list(dict.fromkeys(xml_parts))`: fold that appends each element the
first time it is seen (CPython dict insertion order). -/
def pyDictFromKeys {α : Type} [DecidableEq α] (l : List α) : List α :=
  l.foldl (fun acc x => if x ∈ acc then acc else acc ++ [x]) []

/-- `parse_board_xml`: the `part-id` attributes of all `placement` elements
(`None` when the attribute is missing), duplicates removed. -/
def parse_board_xml (root : XmlElem) : List (Option String) :=
  let xml_parts := (iterTag "placement" root).map
    (fun part => alookup "part-id" (attrsOf part))
  pyDictFromKeys xml_parts

/-- The claim's wording of the deduplication, as a recursive definition:
keep each element's first occurrence, in order. -/
def dedupFirst {α : Type} [DecidableEq α] : List α → List α
  | [] => []
  | x :: xs => x :: dedupFirst (xs.filter (fun y => y ≠ x))
termination_by l => l.length
decreasing_by
  simp only [List.length_cons]
  exact Nat.lt_succ_of_le (List.length_filter_le _ _)

theorem filter_filter_notmem {α : Type} [DecidableEq α] (x : α) (acc : List α) :
    ∀ xs : List α,
      (xs.filter (fun y => y ∉ acc)).filter (fun y => y ≠ x) =
        xs.filter (fun y => y ∉ acc ++ [x]) := by
  intro xs
  induction xs with
  | nil => rfl
  | cons z zs ihz =>
    simp only [List.filter_cons]
    by_cases hz1 : z ∈ acc
    · rw [if_neg (by simp [hz1]), if_neg (by simp [hz1])]
      exact ihz
    · by_cases hz3 : z = x
      · subst hz3
        rw [if_pos (by simp [hz1]), if_neg (by simp)]
        simp only [List.filter_cons]
        rw [if_neg (by simp)]
        exact ihz
      · rw [if_pos (by simp [hz1]), if_pos (by simp [hz1, hz3])]
        simp only [List.filter_cons]
        rw [if_pos (by simp [hz3])]
        rw [ihz]

theorem pyDictFromKeys_fold {α : Type} [DecidableEq α] (l : List α) :
    ∀ acc : List α,
      l.foldl (fun acc x => if x ∈ acc then acc else acc ++ [x]) acc =
        acc ++ dedupFirst (l.filter (fun x => x ∉ acc)) := by
  induction l with
  | nil => intro acc; simp [dedupFirst]
  | cons x xs ih =>
    intro acc
    rw [List.foldl_cons]
    by_cases hx : x ∈ acc
    · rw [if_pos hx, ih]
      have hfe : (x :: xs).filter (fun y => y ∉ acc) =
          xs.filter (fun y => y ∉ acc) := by
        simp [List.filter_cons, hx]
      rw [hfe]
    · rw [if_neg hx, ih]
      have hfe : (x :: xs).filter (fun y => y ∉ acc) =
          x :: xs.filter (fun y => y ∉ acc) := by
        simp [List.filter_cons, hx]
      rw [hfe]
      rw [show dedupFirst (x :: xs.filter (fun y => y ∉ acc)) =
          x :: dedupFirst ((xs.filter (fun y => y ∉ acc)).filter
            (fun y => y ≠ x)) from by rw [dedupFirst]]
      rw [filter_filter_notmem x acc xs]
      simp

theorem pyDictFromKeys_eq_dedupFirst {α : Type} [DecidableEq α] (l : List α) :
    pyDictFromKeys l = dedupFirst l := by
  unfold pyDictFromKeys
  rw [pyDictFromKeys_fold l []]
  simp

theorem pyDictFromKeys_fold_nodup {α : Type} [DecidableEq α] (l : List α) :
    ∀ acc : List α, acc.Nodup →
      (l.foldl (fun acc x => if x ∈ acc then acc else acc ++ [x]) acc).Nodup := by
  induction l with
  | nil => intro acc h; exact h
  | cons x xs ih =>
    intro acc h
    rw [List.foldl_cons]
    by_cases hx : x ∈ acc
    · rw [if_pos hx]; exact ih acc h
    · rw [if_neg hx]
      refine ih _ ?_
      simpa [List.nodup_append] using ⟨h, hx⟩

theorem pyDictFromKeys_fold_mem {α : Type} [DecidableEq α] (l : List α) :
    ∀ (acc : List α) (y : α),
      y ∈ l.foldl (fun acc x => if x ∈ acc then acc else acc ++ [x]) acc ↔
        y ∈ acc ∨ y ∈ l := by
  induction l with
  | nil => intro acc y; simp
  | cons x xs ih =>
    intro acc y
    rw [List.foldl_cons]
    by_cases hx : x ∈ acc
    · rw [if_pos hx, ih]
      constructor
      · rintro (h | h)
        · exact Or.inl h
        · exact Or.inr (List.mem_cons_of_mem x h)
      · rintro (h | h)
        · exact Or.inl h
        · rcases List.mem_cons.1 h with rfl | h'
          · exact Or.inl hx
          · exact Or.inr h'
    · rw [if_neg hx, ih]
      simp only [List.mem_append, List.mem_singleton, List.mem_cons]
      tauto

/-- C10: `parse_board_xml` returns the `part-id` attributes of all
`placement` elements with duplicates removed: each distinct id occurs
exactly once (the result has no duplicates and the same members as the raw
attribute list), and the result keeps the order of first occurrence — it
equals the first-occurrence deduplication of the document-order attribute
list. -/
theorem C10_parse_board_xml (root : XmlElem) :
    (parse_board_xml root).Nodup ∧
    (∀ pid : Option String,
      pid ∈ parse_board_xml root ↔
        pid ∈ (iterTag "placement" root).map
          (fun part => alookup "part-id" (attrsOf part))) ∧
    parse_board_xml root =
      dedupFirst ((iterTag "placement" root).map
        (fun part => alookup "part-id" (attrsOf part))) := by
  refine ⟨?_, ?_, ?_⟩
  · exact pyDictFromKeys_fold_nodup _ [] List.nodup_nil
  · intro pid
    have h := pyDictFromKeys_fold_mem
      ((iterTag "placement" root).map (fun part => alookup "part-id" (attrsOf part)))
      [] pid
    simp only [List.not_mem_nil, false_or] at h
    exact h
  · exact pyDictFromKeys_eq_dedupFirst _

end FeederUtils
